import Mathlib

/-!
Shallow embedding of the shell tokenizer in `src/parser/src/tokenizer.rs`
(crate `brush-parser`).  The character stream is modelled as a `List Char`;
Rust `String`s become `List Char`; mutation becomes explicit state passing;
`Result`/process aborts become `Except Failure`.  The recursive dispatch
loop of `next_token_until` is modelled with explicit fuel: each loop
iteration and each recursive sub-lex consumes one unit, and exhausting the
fuel yields the distinguished `Failure.OutOfFuel` (the Rust loop either
diverges there or the chosen fuel was too small; all theorems below either
quantify over fuel or use a fuel that is provably sufficient).
-/

set_option maxRecDepth 10000

set_option autoImplicit false

/-- 1-based source position; `next_char` advances it (tokenizer.rs lines 20-24). -/
structure SourcePosition where
  line : Int
  column : Int
deriving DecidableEq, Repr

/-- Position pair attached to every token (tokenizer.rs lines 32-36). -/
structure TokenLocation where
  start : SourcePosition
  stop : SourcePosition
deriving DecidableEq, Repr

mutual

/-- Tokens (tokenizer.rs lines 38-42).  `Token::Word` carries its raw text,
its structured decomposition and its location. -/
inductive Token where
  | Operator : List Char → TokenLocation → Token
  | Word : List Char → List WordSubtoken → TokenLocation → Token

inductive WordSubtoken where
  | Text : List Char → WordSubtoken
  | SingleQuotedText : List Char → WordSubtoken
  | DoubleQuotedSequence : List Char → List WordSubtoken → WordSubtoken
  | CommandSubstitution : List Char → List Token → WordSubtoken
  | EscapeSequence : List Char → WordSubtoken

end

/-- `Token::to_str` (tokenizer.rs lines 45-50): the raw text of a token. -/
def Token.to_str : Token → List Char
  | .Operator s _ => s
  | .Word s _ _ => s

/-- `Token::location` (tokenizer.rs lines 52-57). -/
def Token.location : Token → TokenLocation
  | .Operator _ l => l
  | .Word _ _ l => l

/-- `WordSubtoken::to_str` (tokenizer.rs lines 72-80): the raw text. -/
def WordSubtoken.to_str : WordSubtoken → List Char
  | .Text s => s
  | .CommandSubstitution s _ => s
  | .SingleQuotedText s => s
  | .DoubleQuotedSequence s _ => s
  | .EscapeSequence s => s

/-- `TokenEndReason` (tokenizer.rs lines 6-18). -/
inductive TokenEndReason where
  | EndOfInput
  | UnescapedNewLine
  | SpecifiedTerminatingChar
  | NonNewLineBlank
  | Other
deriving DecidableEq, Repr

/-- Result of one `next_token` call (tokenizer.rs lines 83-87). -/
structure TokenizeResult where
  reason : TokenEndReason
  token : Option Token

/-- `QuoteMode` (tokenizer.rs lines 94-99). -/
inductive QuoteMode where
  | None
  | Single : SourcePosition → QuoteMode
  | Double : SourcePosition → QuoteMode
deriving DecidableEq, Repr

/-- `HereState` (tokenizer.rs lines 101-108). -/
inductive HereState where
  | None
  | NextTokenIsHereTag : Bool → HereState
  | CurrentTokenIsHereTag : Bool → HereState
  | NextLineIsHereDoc
  | InHereDocs
deriving DecidableEq, Repr

/-- `HereTag` (tokenizer.rs lines 110-114): the delimiter wrapped in newlines
plus the tab-removal flag. -/
structure HereTag where
  tag : List Char
  remove_tabs : Bool
deriving DecidableEq, Repr

/-- `CrossTokenParseState` (tokenizer.rs lines 116-121): survives across
tokens and recursive sub-lexes. -/
structure CrossTokenParseState where
  cursor : SourcePosition
  here_state : HereState
  current_here_tags : List HereTag
deriving DecidableEq, Repr

/-- `TokenParseState` (tokenizer.rs lines 128-137): scoped to one token.
The head of `subtoken_stack` is the most recently opened frame (the end of
the Rust `Vec`). -/
structure TokenParseState where
  start_position : SourcePosition
  completed_subtokens : List WordSubtoken
  subtoken_stack : List WordSubtoken
  token_so_far : List Char
  token_is_operator : Bool
  in_escape : Bool
  quote_mode : QuoteMode

/-- Failure outcomes.  The first six model the `anyhow` error returns of the
Rust code; `Panicked` models a Rust process abort (`todo` / `assert` /
`unwrap` / explicit programmer-error aborts), which is observably distinct
from an error return; `OutOfFuel` is the fuel-exhaustion marker of this
model. -/
inductive Failure where
  | UnterminatedEscape
  | UnterminatedSingleQuote : SourcePosition → Failure
  | UnterminatedDoubleQuote : SourcePosition → Failure
  | UnterminatedHereDocument
  | MissingHereTag
  | UnterminatedBackquote : SourcePosition → Failure
  | Panicked : String → Failure
  | OutOfFuel
deriving DecidableEq, Repr

/-- The backquote character (ASCII 96). -/
def backquoteChar : Char := Char.ofNat 96

/-- `is_blank` (tokenizer.rs lines 787-789). -/
def is_blank (c : Char) : Bool :=
  c == ' ' || c == '\t'

/-- `can_start_operator` (tokenizer.rs lines 791-793). -/
def can_start_operator (c : Char) : Bool :=
  c == '&' || c == '(' || c == ')' || c == ';' || c == '\n' || c == '|' || c == '<' || c == '>'

/-- `is_quoting_char` (tokenizer.rs lines 819-821). -/
def is_quoting_char (c : Char) : Bool :=
  c == '\\' || c == '\'' || c == '\"'

/-- `is_operator` (tokenizer.rs lines 823-844): the fixed operator table. -/
def is_operator (s : List Char) : Bool :=
  s == "&".data || s == "&&".data || s == "(".data || s == ")".data ||
  s == ";".data || s == ";;".data || s == "\n".data || s == "|".data ||
  s == "||".data || s == "<".data || s == ">".data || s == ">|".data ||
  s == "<<".data || s == ">>".data || s == "<&".data || s == ">&".data ||
  s == "<<-".data || s == "<>".data

/-- `does_char_newly_affect_quoting` (tokenizer.rs lines 795-817). -/
def does_char_newly_affect_quoting (state : TokenParseState) (c : Char) : Bool :=
  if state.in_escape then
    false
  else
    match state.quote_mode with
    | .Double _ => c == '\\'
    | .Single _ => false
    | .None => is_quoting_char c

/-- Append `cs` to the raw text of a subtoken frame (the per-variant
`text.push(c)` / `text.push_str(s)` arms of tokenizer.rs lines 195-203 and
213-221). -/
def WordSubtoken.appendRaw (sub : WordSubtoken) (cs : List Char) : WordSubtoken :=
  match sub with
  | .Text text => .Text (text ++ cs)
  | .SingleQuotedText text => .SingleQuotedText (text ++ cs)
  | .DoubleQuotedSequence text subs => .DoubleQuotedSequence (text ++ cs) subs
  | .EscapeSequence text => .EscapeSequence (text ++ cs)
  | .CommandSubstitution text toks => .CommandSubstitution (text ++ cs) toks

/-- `TokenParseState::new` (tokenizer.rs lines 140-150). -/
def TokenParseState.new (start_position : SourcePosition) : TokenParseState where
  start_position := start_position
  completed_subtokens := []
  subtoken_stack := []
  token_so_far := []
  token_is_operator := false
  in_escape := false
  quote_mode := .None

/-- `TokenParseState::started_token` (tokenizer.rs lines 177-179). -/
def TokenParseState.started_token (s : TokenParseState) : Bool :=
  !s.token_so_far.isEmpty

/-- `TokenParseState::should_start_text_subtoken` (tokenizer.rs lines
181-186): true when the top of the stack is a `DoubleQuotedSequence` or the
stack is empty. -/
def TokenParseState.should_start_text_subtoken (s : TokenParseState) : Bool :=
  match s.subtoken_stack with
  | .DoubleQuotedSequence _ _ :: _ => true
  | [] => true
  | _ => false

/-- `TokenParseState::append_char` (tokenizer.rs lines 188-204): push the
character onto the accumulated raw text and onto every open frame.  The
Rust code aborts when the stack is empty; the model returns `Panicked`. -/
def TokenParseState.append_char (s : TokenParseState) (c : Char) :
    Except Failure TokenParseState :=
  if s.subtoken_stack.isEmpty then
    .error (.Panicked "appending char without current subtoken")
  else
    .ok { s with
          token_so_far := s.token_so_far ++ [c],
          subtoken_stack := s.subtoken_stack.map (fun sub => sub.appendRaw [c]) }

/-- `TokenParseState::append_str` (tokenizer.rs lines 206-222). -/
def TokenParseState.append_str (s : TokenParseState) (str : List Char) :
    Except Failure TokenParseState :=
  if s.subtoken_stack.isEmpty then
    .error (.Panicked "appending string without current subtoken")
  else
    .ok { s with
          token_so_far := s.token_so_far ++ str,
          subtoken_stack := s.subtoken_stack.map (fun sub => sub.appendRaw str) }

/-- `TokenParseState::unquoted` (tokenizer.rs lines 224-226). -/
def TokenParseState.unquoted (s : TokenParseState) : Bool :=
  !s.in_escape &&
    match s.quote_mode with
    | .None => true
    | _ => false

/-- `TokenParseState::delimit_current_subtoken` (tokenizer.rs lines
228-238): pop the top frame; if the frame below is a `DoubleQuotedSequence`
append it to that sequence's children, else to `completed_subtokens`. -/
def TokenParseState.delimit_current_subtoken (s : TokenParseState) : TokenParseState :=
  match s.subtoken_stack with
  | [] => s
  | current :: rest =>
    match rest with
    | .DoubleQuotedSequence text subs :: rest2 =>
      { s with subtoken_stack := .DoubleQuotedSequence text (subs ++ [current]) :: rest2 }
    | _ =>
      { s with subtoken_stack := rest,
               completed_subtokens := s.completed_subtokens ++ [current] }

/-- `TokenParseState::start_subtoken` (tokenizer.rs lines 240-253): unless
the top frame is a `DoubleQuotedSequence` or `CommandSubstitution`, delimit
it first; then push the new frame. -/
def TokenParseState.start_subtoken (s : TokenParseState) (sub : WordSubtoken) :
    TokenParseState :=
  let s :=
    match s.subtoken_stack with
    | .DoubleQuotedSequence _ _ :: _ => s
    | .CommandSubstitution _ _ :: _ => s
    | _ :: _ => s.delimit_current_subtoken
    | [] => s
  { s with subtoken_stack := sub :: s.subtoken_stack }

/-- `TokenParseState::current_token` (tokenizer.rs lines 255-257). -/
def TokenParseState.current_token (s : TokenParseState) : List Char :=
  s.token_so_far

/-- `TokenParseState::is_specific_operator` (tokenizer.rs lines 259-261). -/
def TokenParseState.is_specific_operator (s : TokenParseState) (operator : List Char) : Bool :=
  s.token_is_operator && s.current_token == operator

/-- `TokenParseState::is_newline` (tokenizer.rs lines 267-269). -/
def TokenParseState.is_newline (s : TokenParseState) : Bool :=
  s.token_so_far == "\n".data

/-- `TokenParseState::replace_with_here_doc` (tokenizer.rs lines 271-277):
overwrite the raw text of a `Text` frame on top of the stack (if any) and
the accumulated token text. -/
def TokenParseState.replace_with_here_doc (s : TokenParseState) (str : List Char) :
    TokenParseState :=
  let stack :=
    match s.subtoken_stack with
    | .Text _ :: rest => .Text str :: rest
    | other => other
  { s with subtoken_stack := stack, token_so_far := str }

/-- Iterated `delimit_current_subtoken`, applied once per open frame: the
`while !self.subtoken_stack.is_empty()` loop of `pop` (tokenizer.rs lines
153-155).  Each `delimit_current_subtoken` on a non-empty stack shortens it
by one, so iterating the initial stack length empties it. -/
def TokenParseState.popAllAux : Nat → TokenParseState → TokenParseState
  | 0, s => s
  | n + 1, s => TokenParseState.popAllAux n s.delimit_current_subtoken

/-- `TokenParseState::pop` (tokenizer.rs lines 152-175). -/
def TokenParseState.pop (s : TokenParseState) (end_position : SourcePosition) : Token :=
  let s := TokenParseState.popAllAux s.subtoken_stack.length s
  let token_location : TokenLocation :=
    { start := s.start_position, stop := end_position }
  if s.token_is_operator then
    .Operator s.token_so_far token_location
  else
    .Word s.token_so_far s.completed_subtokens token_location

/-- `str::strip_suffix` on character lists. -/
def stripSuffix (s suffix : List Char) : Option (List Char) :=
  if suffix.isSuffixOf s then some (s.take (s.length - suffix.length)) else none

/-- `TokenParseState::delimit_current_token` (tokenizer.rs lines 279-329):
emit the pending token (if any), stepping the here-document state machine.
A quoted or escaped here tag hits the Rust `todo` abort (line 310), which
the model reports as `Panicked`. -/
def TokenParseState.delimit_current_token (s : TokenParseState) (reason : TokenEndReason)
    (cross : CrossTokenParseState) :
    Except Failure (TokenizeResult × CrossTokenParseState) :=
  if !s.started_token then
    .ok ({ reason := reason, token := none }, cross)
  else
    match cross.here_state with
    | .NextTokenIsHereTag remove_tabs =>
      let cross := { cross with here_state := .CurrentTokenIsHereTag remove_tabs }
      .ok ({ reason := reason, token := some (s.pop cross.cursor) }, cross)
    | .CurrentTokenIsHereTag remove_tabs =>
      if s.is_newline then
        .error .MissingHereTag
      else
        let cross := { cross with here_state := .NextLineIsHereDoc }
        if s.current_token.contains '\"' || s.current_token.contains '\'' ||
            s.current_token.contains '\\' then
          .error (.Panicked "UNIMPLEMENTED: quoted or escaped here tag")
        else
          let cross :=
            { cross with current_here_tags :=
                cross.current_here_tags ++
                  [{ tag := '\n' :: s.current_token ++ ['\n'], remove_tabs := remove_tabs }] }
          .ok ({ reason := reason, token := some (s.pop cross.cursor) }, cross)
    | .NextLineIsHereDoc =>
      let cross :=
        if s.is_newline then { cross with here_state := .InHereDocs } else cross
      .ok ({ reason := reason, token := some (s.pop cross.cursor) }, cross)
    | _ =>
      .ok ({ reason := reason, token := some (s.pop cross.cursor) }, cross)

/-- Cursor advance for one consumed character (`next_char`, tokenizer.rs
lines 360-373): newline bumps the line and resets the column. -/
def SourcePosition.advance (p : SourcePosition) (c : Char) : SourcePosition :=
  if c == '\n' then { line := p.line + 1, column := 1 }
  else { p with column := p.column + 1 }

/-- Consume one character: advance the shared cursor. -/
def CrossTokenParseState.consume (cross : CrossTokenParseState) (c : Char) :
    CrossTokenParseState :=
  { cross with cursor := cross.cursor.advance c }

/-- End-of-iteration here-document check (tokenizer.rs lines 748-767): if
the accumulated token now ends with the first pending tag (wrapped in
newlines), strip that suffix, dequeue the tag, and re-append a trailing
newline. -/
def hereDocSuffixCheck (cross : CrossTokenParseState) (state : TokenParseState) :
    Except Failure (CrossTokenParseState × TokenParseState) :=
  if cross.here_state = HereState.InHereDocs ∧ ¬cross.current_here_tags.isEmpty then
    match cross.current_here_tags with
    | [] => .ok (cross, state)
    | tag0 :: restTags =>
      match stripSuffix state.current_token tag0.tag with
      | none => .ok (cross, state)
      | some without_suffix =>
        let cross := { cross with current_here_tags := restTags }
        let cross :=
          if cross.current_here_tags.isEmpty then
            { cross with here_state := .None }
          else cross
        let state := state.replace_with_here_doc without_suffix
        match state.append_char '\n' with
        | .error f => .error f
        | .ok state => .ok (cross, state)
  else
    .ok (cross, state)

/-- The comment-consuming inner loop (tokenizer.rs lines 719-730): consume
characters up to, but not including, a newline or end of input. -/
def skipComment (input : List Char) (cross : CrossTokenParseState) :
    List Char × CrossTokenParseState :=
  match input with
  | [] => ([], cross)
  | c :: rest =>
    if c == '\n' then (c :: rest, cross)
    else skipComment rest (cross.consume c)

/-- The backquote-scanning loop (tokenizer.rs lines 650-676): consume and
append characters, tracking a one-shot escape flag, until an unescaped
backquote; end of input is an `UnterminatedBackquote` at the opening
position. -/
def scanBackquote (input : List Char) (cross : CrossTokenParseState)
    (state : TokenParseState) (escaping_enabled : Bool)
    (backquote_loc : SourcePosition) :
    Except Failure (TokenParseState × List Char × CrossTokenParseState) :=
  match input with
  | [] => .error (.UnterminatedBackquote backquote_loc)
  | cib :: rest =>
    let cross := cross.consume cib
    match state.append_char cib with
    | .error f => .error f
    | .ok state =>
      if !escaping_enabled && cib == '\\' then
        scanBackquote rest cross state true backquote_loc
      else if !escaping_enabled && cib == backquoteChar then
        .ok (state, rest, cross)
      else
        scanBackquote rest cross state false backquote_loc

/-- `matches!(quote_mode, QuoteMode::Single(_))`. -/
def QuoteMode.isSingle : QuoteMode → Bool
  | .Single _ => true
  | _ => false

/-- `matches!(quote_mode, QuoteMode::Double(_))`. -/
def QuoteMode.isDouble : QuoteMode → Bool
  | .Double _ => true
  | _ => false

/-- `remove_tabs` of the first pending here tag (`current_here_tags[0]`),
false when the queue is empty (the Rust code guards the access with
`!is_empty`). -/
def hereTagsHeadRemoveTabs : List HereTag → Bool
  | [] => false
  | t :: _ => t.remove_tabs

mutual

/-- The dispatch loop of `next_token_until` (tokenizer.rs lines 394-769).
`state` is the `TokenParseState` of the token being built (created fresh by
the Rust function on entry; threading it as an argument models the loop).
Returns the `TokenizeResult`, the unconsumed input, and the updated
cross-token state.  Fuel decreases on every loop iteration and recursive
sub-lex. -/
def next_token_until (fuel : Nat) (terminating_char : Option Char) (input : List Char)
    (cross : CrossTokenParseState) (state : TokenParseState) :
    Except Failure (TokenizeResult × List Char × CrossTokenParseState) :=
  match fuel with
  | 0 => .error .OutOfFuel
  | fuel + 1 =>
    match input with
    | [] =>
      -- End of input: verify no escape, quote, or here-document is open.
      if state.in_escape then .error .UnterminatedEscape
      else
        match state.quote_mode with
        | .Single pos => .error (.UnterminatedSingleQuote pos)
        | .Double pos => .error (.UnterminatedDoubleQuote pos)
        | .None =>
          if cross.here_state ≠ HereState.None then .error .UnterminatedHereDocument
          else
            match state.delimit_current_token .EndOfInput cross with
            | .error f => .error f
            | .ok (result, cross) => .ok (result, [], cross)
    | c :: rest =>
      -- Each branch that does not return runs the end-of-iteration
      -- here-document suffix check (tokenizer.rs lines 748-767) and loops.
      if state.unquoted && terminating_char == some c then
        -- Caller-specified terminating char: emit without consuming it.
        match state.delimit_current_token .SpecifiedTerminatingChar cross with
        | .error f => .error f
        | .ok (result, cross) => .ok (result, c :: rest, cross)
      else if cross.here_state = HereState.InHereDocs then
        -- Inside a here-document body: consume verbatim, with tab removal.
        let cross1 := cross.consume c
        if !cross1.current_here_tags.isEmpty &&
            hereTagsHeadRemoveTabs cross1.current_here_tags &&
            (!state.started_token || state.current_token.getLast? == some '\n') &&
            c == '\t' then
          match hereDocSuffixCheck cross1 state with
          | .error f => .error f
          | .ok (cross9, state9) =>
            next_token_until fuel terminating_char rest cross9 state9
        else
          let state :=
            if state.should_start_text_subtoken then state.start_subtoken (.Text [])
            else state
          match state.append_char c with
          | .error f => .error f
          | .ok state =>
            match hereDocSuffixCheck cross1 state with
            | .error f => .error f
            | .ok (cross9, state9) =>
              next_token_until fuel terminating_char rest cross9 state9
      else if state.token_is_operator then
        -- Operator in progress: extend by maximal munch or finalize.
        let hypothetical_token := state.current_token ++ [c]
        if state.unquoted && is_operator hypothetical_token then
          match state.append_char c with
          | .error f => .error f
          | .ok state =>
            match hereDocSuffixCheck (cross.consume c) state with
            | .error f => .error f
            | .ok (cross9, state9) =>
              next_token_until fuel terminating_char rest cross9 state9
        else if !state.started_token then
          .error (.Panicked "assertion failed: state.started_token()")
        else
          let cross :=
            if state.is_specific_operator "<<".data then
              { cross with here_state := .NextTokenIsHereTag false }
            else if state.is_specific_operator "<<-".data then
              { cross with here_state := .NextTokenIsHereTag true }
            else cross
          match state.delimit_current_token .Other cross with
          | .error f => .error f
          | .ok (result, cross) => .ok (result, c :: rest, cross)
      else if does_char_newly_affect_quoting state c then
        if c == '\\' then
          let cross1 := cross.consume c
          match rest with
          | '\n' :: rest2 =>
            -- Line continuation: consume both, include neither.
            match hereDocSuffixCheck (cross1.consume '\n') state with
            | .error f => .error f
            | .ok (cross9, state9) =>
              next_token_until fuel terminating_char rest2 cross9 state9
          | _ =>
            let state := state.start_subtoken (.EscapeSequence [])
            let state := { state with in_escape := true }
            match state.append_char c with
            | .error f => .error f
            | .ok state =>
              match hereDocSuffixCheck cross1 state with
              | .error f => .error f
              | .ok (cross9, state9) =>
                next_token_until fuel terminating_char rest cross9 state9
        else if c == '\'' then
          let state := state.start_subtoken (.SingleQuotedText [])
          let state := { state with quote_mode := .Single cross.cursor }
          match state.append_char c with
          | .error f => .error f
          | .ok state =>
            match hereDocSuffixCheck (cross.consume c) state with
            | .error f => .error f
            | .ok (cross9, state9) =>
              next_token_until fuel terminating_char rest cross9 state9
        else if c == '\"' then
          let state := state.start_subtoken (.DoubleQuotedSequence [] [])
          let state := { state with quote_mode := .Double cross.cursor }
          match state.append_char c with
          | .error f => .error f
          | .ok state =>
            match hereDocSuffixCheck (cross.consume c) state with
            | .error f => .error f
            | .ok (cross9, state9) =>
              next_token_until fuel terminating_char rest cross9 state9
        else
          -- Unreachable: a quote-affecting char is a backslash or quote.
          -- The Rust loop would repeat without consuming; spin on fuel.
          match hereDocSuffixCheck cross state with
          | .error f => .error f
          | .ok (cross9, state9) =>
            next_token_until fuel terminating_char (c :: rest) cross9 state9
      else if !state.in_escape && state.quote_mode.isSingle && c == '\'' then
        -- End of single quote.
        let state := { state with quote_mode := .None }
        match state.append_char c with
        | .error f => .error f
        | .ok state =>
          match hereDocSuffixCheck (cross.consume c) state.delimit_current_subtoken with
          | .error f => .error f
          | .ok (cross9, state9) =>
            next_token_until fuel terminating_char rest cross9 state9
      else if !state.in_escape && state.quote_mode.isDouble && c == '\"' then
        -- End of double quote: first delimit any open inner frame.
        let state :=
          match state.subtoken_stack with
          | .DoubleQuotedSequence _ _ :: _ => state
          | _ => state.delimit_current_subtoken
        let state := { state with quote_mode := .None }
        match state.append_char c with
        | .error f => .error f
        | .ok state =>
          match hereDocSuffixCheck (cross.consume c) state.delimit_current_subtoken with
          | .error f => .error f
          | .ok (cross9, state9) =>
            next_token_until fuel terminating_char rest cross9 state9
      else if state.in_escape then
        -- End of escape sequence.
        let state := { state with in_escape := false }
        match state.append_char c with
        | .error f => .error f
        | .ok state =>
          match hereDocSuffixCheck (cross.consume c) state.delimit_current_subtoken with
          | .error f => .error f
          | .ok (cross9, state9) =>
            next_token_until fuel terminating_char rest cross9 state9
      else if (state.unquoted || (state.quote_mode.isDouble && !state.in_escape)) &&
          (c == '$' || c == backquoteChar) then
        if c == '$' then
          -- Consume the '$' so we can peek beyond.
          let cross1 := cross.consume c
          match rest with
          | [] =>
            -- End of input right after the '$': nothing is appended.
            match hereDocSuffixCheck cross1 state with
            | .error f => .error f
            | .ok (cross9, state9) =>
              next_token_until fuel terminating_char [] cross9 state9
          | cads :: rest2 =>
            if cads == '(' then
              let state := state.start_subtoken (.CommandSubstitution [] [])
              match state.append_char '$' with
              | .error f => .error f
              | .ok state =>
                let cross2 := cross1.consume cads
                match state.append_char cads with
                | .error f => .error f
                | .ok state =>
                  match command_substitution_loop fuel rest2 cross2 state [] with
                  | .error f => .error f
                  | .ok (state, tokens, input3, cross3) =>
                    -- Consume the ')' and append it.
                    match input3 with
                    | [] => .error (.Panicked "called Option::unwrap on a None value")
                    | cp :: rest3 =>
                      match state.append_char cp with
                      | .error f => .error f
                      | .ok state =>
                        match state.subtoken_stack with
                        | .CommandSubstitution text existing_tokens :: stackRest =>
                          let state :=
                            { state with subtoken_stack :=
                                .CommandSubstitution text (existing_tokens ++ tokens) ::
                                  stackRest }
                          match hereDocSuffixCheck (cross3.consume cp) state.delimit_current_subtoken with
                          | .error f => .error f
                          | .ok (cross9, state9) =>
                            next_token_until fuel terminating_char rest3 cross9 state9
                        | _ => .error (.Panicked "expected command substitution subtoken")
            else if cads == '{' then
              let state :=
                if state.should_start_text_subtoken then state.start_subtoken (.Text [])
                else state
              match state.append_char '$' with
              | .error f => .error f
              | .ok state =>
                let cross2 := cross1.consume cads
                match state.append_char cads with
                | .error f => .error f
                | .ok state =>
                  match braced_expansion_loop fuel rest2 cross2 state with
                  | .error f => .error f
                  | .ok (state, input3, cross3) =>
                    match hereDocSuffixCheck cross3 state with
                    | .error f => .error f
                    | .ok (cross9, state9) =>
                      next_token_until fuel terminating_char input3 cross9 state9
            else
              let state :=
                if state.should_start_text_subtoken then state.start_subtoken (.Text [])
                else state
              match state.append_char '$' with
              | .error f => .error f
              | .ok state =>
                match hereDocSuffixCheck cross1 state with
                | .error f => .error f
                | .ok (cross9, state9) =>
                  next_token_until fuel terminating_char (cads :: rest2) cross9 state9
        else
          -- Backquoted command substitution: scan opaquely.
          let backquote_loc := cross.cursor
          let cross1 := cross.consume c
          let state := state.start_subtoken (.CommandSubstitution [] [])
          match state.append_char c with
          | .error f => .error f
          | .ok state =>
            match scanBackquote rest cross1 state false backquote_loc with
            | .error f => .error f
            | .ok (state, rest2, cross2) =>
              match hereDocSuffixCheck cross2 state.delimit_current_subtoken with
              | .error f => .error f
              | .ok (cross9, state9) =>
                next_token_until fuel terminating_char rest2 cross9 state9
      else if state.unquoted && can_start_operator c then
        if state.started_token then
          match state.delimit_current_token .Other cross with
          | .error f => .error f
          | .ok (result, cross) => .ok (result, c :: rest, cross)
        else
          let state :=
            if state.should_start_text_subtoken then state.start_subtoken (.Text [])
            else state
          let state := { state with token_is_operator := true }
          match state.append_char c with
          | .error f => .error f
          | .ok state =>
            match hereDocSuffixCheck (cross.consume c) state with
            | .error f => .error f
            | .ok (cross9, state9) =>
              next_token_until fuel terminating_char rest cross9 state9
      else if state.unquoted && is_blank c then
        let cross1 := cross.consume c
        if state.started_token then
          match state.delimit_current_token .NonNewLineBlank cross1 with
          | .error f => .error f
          | .ok (result, cross2) => .ok (result, rest, cross2)
        else
          match hereDocSuffixCheck cross1 state with
          | .error f => .error f
          | .ok (cross9, state9) =>
            next_token_until fuel terminating_char rest cross9 state9
      else if !state.token_is_operator &&
          (state.started_token || terminating_char.isSome) then
        let state :=
          if state.should_start_text_subtoken then state.start_subtoken (.Text [])
          else state
        match state.append_char c with
        | .error f => .error f
        | .ok state =>
          match hereDocSuffixCheck (cross.consume c) state with
          | .error f => .error f
          | .ok (cross9, state9) =>
            next_token_until fuel terminating_char rest cross9 state9
      else if c == '#' then
        -- Comment: consume through end of line / input, produce nothing.
        -- The Rust `continue` skips the end-of-iteration here-doc check.
        let cross1 := cross.consume c
        let skipped := skipComment rest cross1
        next_token_until fuel terminating_char skipped.1 skipped.2 state
      else if state.started_token then
        match state.delimit_current_token .Other cross with
        | .error f => .error f
        | .ok (result, cross) => .ok (result, c :: rest, cross)
      else
        let state :=
          if state.should_start_text_subtoken then state.start_subtoken (.Text [])
          else state
        match state.append_char c with
        | .error f => .error f
        | .ok state =>
          match hereDocSuffixCheck (cross.consume c) state with
          | .error f => .error f
          | .ok (cross9, state9) =>
            next_token_until fuel terminating_char rest cross9 state9
  termination_by structural fuel

/-- The collection loop inside `$(...)` handling (tokenizer.rs lines
566-584): repeatedly sub-lex with terminating char `)`, space-joining the
raw text of emitted sub-tokens into the outer state, until a result reports
`SpecifiedTerminatingChar`. -/
def command_substitution_loop (fuel : Nat) (input : List Char)
    (cross : CrossTokenParseState) (state : TokenParseState) (tokens : List Token) :
    Except Failure (TokenParseState × List Token × List Char × CrossTokenParseState) :=
  match fuel with
  | 0 => .error .OutOfFuel
  | fuel + 1 =>
    match next_token_until fuel (some ')') input cross (TokenParseState.new cross.cursor) with
    | .error f => .error f
    | .ok (cur_token, input, cross) =>
      match cur_token.token with
      | some cur_token_value =>
        let appended : Except Failure TokenParseState :=
          if !tokens.isEmpty then state.append_char ' ' else .ok state
        match appended with
        | .error f => .error f
        | .ok state =>
          match state.append_str cur_token_value.to_str with
          | .error f => .error f
          | .ok state =>
            let tokens := tokens ++ [cur_token_value]
            if cur_token.reason = TokenEndReason.SpecifiedTerminatingChar then
              .ok (state, tokens, input, cross)
            else
              command_substitution_loop fuel input cross state tokens
      | none =>
        if cur_token.reason = TokenEndReason.SpecifiedTerminatingChar then
          .ok (state, tokens, input, cross)
        else
          command_substitution_loop fuel input cross state tokens
  termination_by structural fuel

/-- The collection loop inside `${...}` handling (tokenizer.rs lines
609-626): repeatedly sub-lex with terminating char, appending each
sub-token's raw text (plus a space after a blank-delimited one), until
`SpecifiedTerminatingChar`, then consume and append the closing brace. -/
def braced_expansion_loop (fuel : Nat) (input : List Char)
    (cross : CrossTokenParseState) (state : TokenParseState) :
    Except Failure (TokenParseState × List Char × CrossTokenParseState) :=
  match fuel with
  | 0 => .error .OutOfFuel
  | fuel + 1 =>
    match next_token_until fuel (some '}') input cross (TokenParseState.new cross.cursor) with
    | .error f => .error f
    | .ok (cur_token, input, cross) =>
      let appended : Except Failure TokenParseState :=
        match cur_token.token with
        | some cur_token_value => state.append_str cur_token_value.to_str
        | none => .ok state
      match appended with
      | .error f => .error f
      | .ok state =>
        let appended2 : Except Failure TokenParseState :=
          if cur_token.reason = TokenEndReason.NonNewLineBlank then state.append_char ' '
          else .ok state
        match appended2 with
        | .error f => .error f
        | .ok state =>
          if cur_token.reason = TokenEndReason.SpecifiedTerminatingChar then
            match input with
            | [] => .error (.Panicked "called Option::unwrap on a None value")
            | cb :: rest =>
              match state.append_char cb with
              | .error f => .error f
              | .ok state => .ok (state, rest, cross.consume cb)
          else
            braced_expansion_loop fuel input cross state
  termination_by structural fuel

end

/-- `Tokenizer::new` (tokenizer.rs lines 345-354): initial shared state. -/
def initialCrossState : CrossTokenParseState where
  cursor := { line := 1, column := 1 }
  here_state := .None
  current_here_tags := []

/-- `next_token` (tokenizer.rs lines 390-392): a whole `next_token_until`
call with no terminating char, starting from a fresh token parse state. -/
def next_token (fuel : Nat) (input : List Char) (cross : CrossTokenParseState) :
    Except Failure (TokenizeResult × List Char × CrossTokenParseState) :=
  next_token_until fuel none input cross (TokenParseState.new cross.cursor)

/-- The collection loop of `tokenize_str` (tokenizer.rs lines 336-339):
`while let Some(token) = tokenizer.next_token()?.token`. -/
def tokenize_str_loop (fuel : Nat) (input : List Char) (cross : CrossTokenParseState)
    (tokens : List Token) : Except Failure (List Token) :=
  match fuel with
  | 0 => .error .OutOfFuel
  | fuel + 1 =>
    match next_token fuel input cross with
    | .error f => .error f
    | .ok (result, input, cross) =>
      match result.token with
      | some token => tokenize_str_loop fuel input cross (tokens ++ [token])
      | none => .ok tokens

/-- `tokenize_str` (tokenizer.rs lines 332-342), with explicit fuel. -/
def tokenize_str (fuel : Nat) (input : List Char) : Except Failure (List Token) :=
  tokenize_str_loop fuel input initialCrossState []

/-- Operator/word discriminator, for use in theorem statements. -/
def Token.isOperatorToken : Token → Bool
  | .Operator _ _ => true
  | .Word _ _ _ => false

/-- One-line summary of a token: its operator flag and its raw text. -/
def Token.summary (t : Token) : Bool × List Char :=
  (t.isOperatorToken, t.to_str)

/-- Tokenize a whole input and project every token to its summary. -/
def tokenSummaries (fuel : Nat) (input : List Char) :
    Except Failure (List (Bool × List Char)) :=
  (tokenize_str fuel input).map (fun ts => ts.map Token.summary)

/-- Constructor discriminator for word subtokens. -/
inductive SubtokenKind where
  | text
  | singleQuoted
  | doubleQuoted
  | commandSubstitution
  | escape
deriving DecidableEq, Repr

/-- The kind of a word subtoken. -/
def WordSubtoken.kind : WordSubtoken → SubtokenKind
  | .Text _ => .text
  | .SingleQuotedText _ => .singleQuoted
  | .DoubleQuotedSequence _ _ => .doubleQuoted
  | .CommandSubstitution _ _ => .commandSubstitution
  | .EscapeSequence _ => .escape

/-- The number of nested tokens held by a subtoken (only
`CommandSubstitution` holds any). -/
def WordSubtoken.nestedTokenCount : WordSubtoken → Nat
  | .CommandSubstitution _ toks => toks.length
  | _ => 0

/-- Shape of a word token: kind, raw text and nested-token count of each
completed subtoken. -/
def Token.subtokenShapes : Token → List (SubtokenKind × List Char × Nat)
  | .Word _ subs _ => subs.map (fun s => (s.kind, s.to_str, s.nestedTokenCount))
  | .Operator _ _ => []

/-- Tokenize a whole input and project every token to its subtoken shapes. -/
def wordShapes (fuel : Nat) (input : List Char) :
    Except Failure (List (List (SubtokenKind × List Char × Nat))) :=
  (tokenize_str fuel input).map (fun ts => ts.map Token.subtokenShapes)

/-- C4: the here-document example `cat <<HERE\nSOMETHING\nHERE\n` yields
exactly the five tokens word `cat`, operator `<<`, word `HERE`, operator
newline, and the body word `SOMETHING\n`; the terminating tag line appears
in no token. -/
theorem c4_here_doc_tokens :
    tokenSummaries 99 "cat <<HERE\nSOMETHING\nHERE\n".data =
      .ok [(false, "cat".data), (true, "<<".data), (false, "HERE".data),
           (true, "\n".data), (false, "SOMETHING\n".data)] := by
  rfl

/-- Appending to a frame's raw text extends `to_str` by exactly that text. -/
theorem WordSubtoken.to_str_appendRaw (sub : WordSubtoken) (cs : List Char) :
    (sub.appendRaw cs).to_str = sub.to_str ++ cs := by
  cases sub <;> rfl

/-- C6: every successful append while a token is being built extends the
token's accumulated raw text and the raw text of every frame currently on
the subtoken stack by the same characters — for `append_char` (first
conjunct) and `append_str` (second conjunct). -/
theorem c6_append_mirrors_all_frames :
    (∀ (s : TokenParseState) (c : Char) (s' : TokenParseState),
        s.append_char c = Except.ok s' →
        s'.token_so_far = s.token_so_far ++ [c] ∧
        s'.subtoken_stack.length = s.subtoken_stack.length ∧
        ∀ (i : Nat) (h : i < s'.subtoken_stack.length)
            (h2 : i < s.subtoken_stack.length),
          (s'.subtoken_stack.get ⟨i, h⟩).to_str =
            (s.subtoken_stack.get ⟨i, h2⟩).to_str ++ [c]) ∧
    (∀ (s : TokenParseState) (str : List Char) (s' : TokenParseState),
        s.append_str str = Except.ok s' →
        s'.token_so_far = s.token_so_far ++ str ∧
        s'.subtoken_stack.length = s.subtoken_stack.length ∧
        ∀ (i : Nat) (h : i < s'.subtoken_stack.length)
            (h2 : i < s.subtoken_stack.length),
          (s'.subtoken_stack.get ⟨i, h⟩).to_str =
            (s.subtoken_stack.get ⟨i, h2⟩).to_str ++ str) := by
  constructor
  · intro s c s' h
    unfold TokenParseState.append_char at h
    split at h
    · exact absurd h (by simp)
    · injection h with h
      subst h
      refine ⟨rfl, by simp, ?_⟩
      intro i h h2
      simp [List.get_eq_getElem, WordSubtoken.to_str_appendRaw]
  · intro s str s' h
    unfold TokenParseState.append_str at h
    split at h
    · exact absurd h (by simp)
    · injection h with h
      subst h
      refine ⟨rfl, by simp, ?_⟩
      intro i h h2
      simp [List.get_eq_getElem, WordSubtoken.to_str_appendRaw]

/-- A concrete token-build state with one open frame, for the witness. -/
def c6_state : TokenParseState where
  start_position := { line := 1, column := 1 }
  completed_subtokens := []
  subtoken_stack := [.Text "a".data, .CommandSubstitution "a".data []]
  token_so_far := "a".data
  token_is_operator := false
  in_escape := false
  quote_mode := .None

/-- The state `c6_state` after appending `'b'`. -/
def c6_state_after : TokenParseState where
  start_position := { line := 1, column := 1 }
  completed_subtokens := []
  subtoken_stack := [.Text "ab".data, .CommandSubstitution "ab".data []]
  token_so_far := "ab".data
  token_is_operator := false
  in_escape := false
  quote_mode := .None

theorem c6_append_mirrors_all_frames_witness :
    c6_state_after.token_so_far = c6_state.token_so_far ++ ['b'] ∧
    c6_state_after.subtoken_stack.length = c6_state.subtoken_stack.length :=
  ⟨(c6_append_mirrors_all_frames.1 c6_state 'b' c6_state_after (by rfl)).1,
   (c6_append_mirrors_all_frames.1 c6_state 'b' c6_state_after (by rfl)).2.1⟩

/-- C7: reaching end of input with an open escape sequence yields the
`UnterminatedEscape` error; with an open quote region, an unterminated-
quote error carrying the quote kind and the position where the quote began
(the position recorded in `quote_mode`); in all three cases no token is
produced (the call returns an error).  The last three conjuncts run whole
inputs ending inside an escape, a single quote and a double quote. -/
theorem c7_unterminated_escape_or_quote :
    (∀ (fuel : Nat) (term : Option Char) (cross : CrossTokenParseState)
        (state : TokenParseState),
        state.in_escape = true →
        next_token_until (fuel + 1) term [] cross state =
          .error .UnterminatedEscape) ∧
    (∀ (fuel : Nat) (term : Option Char) (cross : CrossTokenParseState)
        (state : TokenParseState) (pos : SourcePosition),
        state.in_escape = false →
        state.quote_mode = QuoteMode.Single pos →
        next_token_until (fuel + 1) term [] cross state =
          .error (.UnterminatedSingleQuote pos)) ∧
    (∀ (fuel : Nat) (term : Option Char) (cross : CrossTokenParseState)
        (state : TokenParseState) (pos : SourcePosition),
        state.in_escape = false →
        state.quote_mode = QuoteMode.Double pos →
        next_token_until (fuel + 1) term [] cross state =
          .error (.UnterminatedDoubleQuote pos)) ∧
    tokenize_str 99 "ab\\".data = .error .UnterminatedEscape ∧
    tokenize_str 99 "'ab".data =
      .error (.UnterminatedSingleQuote { line := 1, column := 1 }) ∧
    tokenize_str 99 "x\"ab".data =
      .error (.UnterminatedDoubleQuote { line := 1, column := 2 }) := by
  refine ⟨?_, ?_, ?_, by rfl, by rfl, by rfl⟩
  · intro fuel term cross state h
    simp [next_token_until, h]
  · intro fuel term cross state pos h hq
    simp [next_token_until, h, hq]
  · intro fuel term cross state pos h hq
    simp [next_token_until, h, hq]

theorem c7_unterminated_escape_or_quote_witness :
    next_token_until 5 none []
        initialCrossState
        { start_position := { line := 1, column := 1 },
          completed_subtokens := [], subtoken_stack := [.EscapeSequence "\\".data],
          token_so_far := "\\".data, token_is_operator := false,
          in_escape := true, quote_mode := .None } =
      .error .UnterminatedEscape :=
  c7_unterminated_escape_or_quote.1 4 none initialCrossState _ rfl

/-- C10: an unquoted, unescaped `$` that is the last character of the input
is consumed without being appended to any token: the dispatch step on input
`['$']` consumes the `$` and continues, at the advanced cursor, with the
token parse state completely unchanged (first conjunct); consequently the
input `$` yields no tokens and `echo $` yields only the word `echo`. -/
theorem c10_trailing_dollar_elided :
    (∀ (fuel : Nat) (term : Option Char) (cross : CrossTokenParseState)
        (state : TokenParseState),
        state.in_escape = false →
        state.quote_mode = QuoteMode.None →
        state.token_is_operator = false →
        cross.here_state ≠ HereState.InHereDocs →
        term ≠ some '$' →
        next_token_until (fuel + 1) term ['$'] cross state =
          next_token_until fuel term [] (cross.consume '$') state) ∧
    tokenize_str 30 "$".data = .ok [] ∧
    tokenSummaries 30 "echo $".data = .ok [(false, "echo".data)] := by
  refine ⟨?_, by rfl, by rfl⟩
  intro fuel term cross state hesc hq hop hhere hterm
  have hterm' : (term == some '$') = false := by
    exact beq_eq_false_iff_ne.mpr hterm
  simp [next_token_until, hesc, hq, hop, hhere, hterm',
    TokenParseState.unquoted, does_char_newly_affect_quoting, is_quoting_char,
    QuoteMode.isSingle, QuoteMode.isDouble, hereDocSuffixCheck,
    CrossTokenParseState.consume, backquoteChar]

theorem c10_trailing_dollar_elided_witness :
    next_token_until 10 none ['$'] initialCrossState
        (TokenParseState.new { line := 1, column := 1 }) =
      next_token_until 9 none [] (initialCrossState.consume '$')
        (TokenParseState.new { line := 1, column := 1 }) :=
  c10_trailing_dollar_elided.1 9 none initialCrossState
    (TokenParseState.new { line := 1, column := 1 }) rfl rfl rfl
    (by decide) (by decide)

/-- C5: operator recognition is maximal munch over the fixed table.  While
an (unquoted) operator token is in progress, the dispatch step extends it
by the next character exactly when the extended string is itself in the
operator table (first conjunct: member, so consume and extend; second
conjunct: non-member, so finalize with reason `Other` without consuming,
arming the here-document state when the finalized operator is `<<` or
`<<-`).  In particular `a>>b` lexes as word `a`, operator `>>`, word `b`. -/
theorem c5_maximal_munch :
    (∀ (fuel : Nat) (term : Option Char) (c : Char) (rest : List Char)
        (cross : CrossTokenParseState) (state st' : TokenParseState),
        state.token_is_operator = true →
        state.in_escape = false →
        state.quote_mode = QuoteMode.None →
        cross.here_state ≠ HereState.InHereDocs →
        term ≠ some c →
        is_operator (state.current_token ++ [c]) = true →
        state.append_char c = Except.ok st' →
        next_token_until (fuel + 1) term (c :: rest) cross state =
          next_token_until fuel term rest (cross.consume c) st') ∧
    (∀ (fuel : Nat) (term : Option Char) (c : Char) (rest : List Char)
        (cross : CrossTokenParseState) (state : TokenParseState),
        state.token_is_operator = true →
        state.started_token = true →
        cross.here_state ≠ HereState.InHereDocs →
        term ≠ some c →
        is_operator (state.current_token ++ [c]) = false →
        next_token_until (fuel + 1) term (c :: rest) cross state =
          (let cross2 :=
            if state.is_specific_operator "<<".data then
              { cross with here_state := .NextTokenIsHereTag false }
            else if state.is_specific_operator "<<-".data then
              { cross with here_state := .NextTokenIsHereTag true }
            else cross
           match state.delimit_current_token .Other cross2 with
           | .error f => .error f
           | .ok (result, cross3) => .ok (result, c :: rest, cross3))) ∧
    tokenSummaries 99 "a>>b".data =
      .ok [(false, "a".data), (true, ">>".data), (false, "b".data)] := by
  refine ⟨?_, ?_, by rfl⟩
  · intro fuel term c rest cross state st' hop hesc hq hhere hterm hext happ
    have hterm' : (term == some c) = false := beq_eq_false_iff_ne.mpr hterm
    simp [next_token_until, hop, hesc, hq, hhere, hterm', hext, happ,
      TokenParseState.unquoted, hereDocSuffixCheck, CrossTokenParseState.consume]
  · intro fuel term c rest cross state hop hstart hhere hterm hext
    have hterm' : (term == some c) = false := beq_eq_false_iff_ne.mpr hterm
    simp [next_token_until, hop, hstart, hhere, hterm', hext,
      TokenParseState.unquoted]

theorem c5_maximal_munch_witness :
    next_token_until 10 none ['<', 'x'] initialCrossState
        { start_position := { line := 1, column := 1 },
          completed_subtokens := [], subtoken_stack := [.Text "<".data],
          token_so_far := "<".data, token_is_operator := true,
          in_escape := false, quote_mode := .None } =
      next_token_until 9 none ['x'] (initialCrossState.consume '<')
        { start_position := { line := 1, column := 1 },
          completed_subtokens := [], subtoken_stack := [.Text "<<".data],
          token_so_far := "<<".data, token_is_operator := true,
          in_escape := false, quote_mode := .None } :=
  c5_maximal_munch.1 9 none '<' ['x'] initialCrossState _ _ rfl rfl rfl
    (by decide) (by decide) (by decide) (by rfl)

/-- C1 counterexample: on an input whose here-tag token contains a single
quote, tokenization does NOT fail with an `UnsupportedHereTag` error
result — no such error value exists anywhere in the code; instead it
reaches the Rust `todo` at tokenizer.rs line 310, i.e. the unimplemented-
feature abort of the process, modelled as the distinguished `Panicked`
outcome.  This falsifies the claim that a quoted or escaped here tag is
rejected "with an UnsupportedHereTag error result, rather than ...
aborting the process". -/
theorem c1_counterexample_quoted_tag_panics :
    tokenize_str 99 "cat <<'T'\nx\n'T'\n".data =
      .error (.Panicked "UNIMPLEMENTED: quoted or escaped here tag") := by
  rfl

/-- C1 (amended): whenever the token delimited as a here tag contains a
double quote, single quote, or backslash, tokenization fails — not
silently mis-lexing — but by the unconditional unimplemented-feature abort
(`todo`, modelled as `Panicked`), not by returning an `UnsupportedHereTag`
error result.  First conjunct: `delimit_current_token` on any such tag
state produces exactly that abort; second conjunct: an end-to-end run with
a backslash-escaped here tag. -/
theorem c1_quoted_here_tag_unimplemented_abort :
    (∀ (state : TokenParseState) (reason : TokenEndReason)
        (cross : CrossTokenParseState) (remove_tabs : Bool),
        cross.here_state = HereState.CurrentTokenIsHereTag remove_tabs →
        state.started_token = true →
        state.is_newline = false →
        (state.current_token.contains '\"' || state.current_token.contains '\'' ||
          state.current_token.contains '\\') = true →
        state.delimit_current_token reason cross =
          .error (.Panicked "UNIMPLEMENTED: quoted or escaped here tag")) ∧
    tokenize_str 99 "cat <<E\\F\nx\nEF\n".data =
      .error (.Panicked "UNIMPLEMENTED: quoted or escaped here tag") := by
  refine ⟨?_, by rfl⟩
  intro state reason cross remove_tabs hhere hstart hnl hcontains
  simp only [TokenParseState.delimit_current_token, hhere, hstart, hnl,
    Bool.not_true, Bool.false_eq_true, if_false, if_true, hcontains]

theorem c1_quoted_here_tag_unimplemented_abort_witness :
    TokenParseState.delimit_current_token
        { start_position := { line := 1, column := 1 },
          completed_subtokens := [], subtoken_stack := [.Text "a\\b".data],
          token_so_far := "a\\b".data, token_is_operator := false,
          in_escape := false, quote_mode := .None }
        TokenEndReason.Other
        { cursor := { line := 1, column := 9 },
          here_state := .CurrentTokenIsHereTag false, current_here_tags := [] } =
      .error (.Panicked "UNIMPLEMENTED: quoted or escaped here tag") :=
  c1_quoted_here_tag_unimplemented_abort.1 _ TokenEndReason.Other _ false rfl
    (by decide) (by decide) (by decide)

/-- C9 counterexample: during a recursive sub-lex with terminating char `)`
(i.e. inside `$(...)`), a `#` seen with no token started is NOT consumed as
a comment: the sub-lex on input `#b)` emits a word token whose raw text is
`#b` (the would-be comment text), and end-to-end `a$(#b)c` lexes as the
single word `a$(#b)c` with the `#b` retained.  This falsifies the claim
that the comment rule also applies during recursive sub-lexes. -/
theorem c9_counterexample_comment_in_sublex :
    Except.map (fun r => (r.1.reason, r.1.token.map Token.to_str, r.2.1))
        (next_token_until 30 (some ')') "#b)".data initialCrossState
          (TokenParseState.new initialCrossState.cursor)) =
      .ok (TokenEndReason.SpecifiedTerminatingChar, some "#b".data, ")".data) ∧
    tokenSummaries 99 "a$(#b)c".data = .ok [(false, "a$(#b)c".data)] := by
  exact ⟨rfl, rfl⟩

/-- C9 (amended): `#` starts a comment only when the current token has not
yet begun AND the tokenizer was not invoked with a terminating character.
First conjunct: at top level (`terminating_char = none`), a `#` with no
token started consumes a comment through end of line / end of input,
produces no token from it, and restarts the dispatch loop with the token
parse state untouched.  Second conjunct: in a recursive sub-lex
(`terminating_char = some t`), the same `#` is instead consumed literally
into a fresh `Text` subtoken of the current word.  Third conjunct: at top
level the comment is discarded and the terminating newline kept. -/
theorem c9_comment_only_at_top_level :
    (∀ (fuel : Nat) (c : Char) (rest : List Char)
        (cross : CrossTokenParseState) (state : TokenParseState),
        c = '#' →
        state.started_token = false →
        state.token_is_operator = false →
        state.in_escape = false →
        state.quote_mode = QuoteMode.None →
        cross.here_state ≠ HereState.InHereDocs →
        next_token_until (fuel + 1) none (c :: rest) cross state =
          next_token_until fuel none (skipComment rest (cross.consume c)).1
            (skipComment rest (cross.consume c)).2 state) ∧
    (∀ (fuel : Nat) (t : Char) (c : Char) (rest : List Char)
        (cross : CrossTokenParseState) (state : TokenParseState),
        c = '#' →
        state.token_so_far = [] →
        state.subtoken_stack = [] →
        state.token_is_operator = false →
        state.in_escape = false →
        state.quote_mode = QuoteMode.None →
        cross.here_state ≠ HereState.InHereDocs →
        t ≠ c →
        next_token_until (fuel + 1) (some t) (c :: rest) cross state =
          next_token_until fuel (some t) rest (cross.consume c)
            { state with token_so_far := ['#'],
                         subtoken_stack := [.Text ['#']] }) ∧
    tokenSummaries 99 "a #comment\nc".data =
      .ok [(false, "a".data), (true, "\n".data), (false, "c".data)] := by
  refine ⟨?_, ?_, by rfl⟩
  · intro fuel c rest cross state hc hstart hop hesc hq hhere
    subst hc
    simp [next_token_until, hstart, hop, hesc, hq, hhere,
      TokenParseState.unquoted, does_char_newly_affect_quoting,
      is_quoting_char, can_start_operator, is_blank, backquoteChar,
      Char.ofNat]
  · intro fuel t c rest cross state hc htok hstack hop hesc hq hhere ht
    subst hc
    have ht' : (some t == some '#') = false :=
      beq_eq_false_iff_ne.mpr (by simpa using ht)
    have hstart : state.started_token = false := by
      simp [TokenParseState.started_token, htok]
    simp [next_token_until, hstart, hop, hesc, hq, hhere, ht',
      TokenParseState.unquoted, does_char_newly_affect_quoting,
      is_quoting_char, can_start_operator, is_blank, backquoteChar,
      Char.ofNat, TokenParseState.should_start_text_subtoken, hstack,
      TokenParseState.start_subtoken, TokenParseState.append_char,
      WordSubtoken.appendRaw, hereDocSuffixCheck,
      CrossTokenParseState.consume, htok]

theorem c9_comment_only_at_top_level_witness :
    (next_token_until 10 none ('#' :: "b\nc".data) initialCrossState
        (TokenParseState.new { line := 1, column := 1 }) =
      next_token_until 9 none
        (skipComment "b\nc".data (initialCrossState.consume '#')).1
        (skipComment "b\nc".data (initialCrossState.consume '#')).2
        (TokenParseState.new { line := 1, column := 1 })) ∧
    (next_token_until 10 (some ')') ('#' :: "b)".data) initialCrossState
        (TokenParseState.new { line := 1, column := 1 }) =
      next_token_until 9 (some ')') "b)".data (initialCrossState.consume '#')
        { TokenParseState.new { line := 1, column := 1 } with
            token_so_far := ['#'], subtoken_stack := [.Text ['#']] }) :=
  ⟨c9_comment_only_at_top_level.1 9 '#' "b\nc".data initialCrossState
      (TokenParseState.new { line := 1, column := 1 }) rfl rfl rfl rfl rfl
      (by decide),
   c9_comment_only_at_top_level.2.1 9 ')' '#' "b)".data initialCrossState
      (TokenParseState.new { line := 1, column := 1 }) rfl rfl rfl rfl rfl rfl
      (by decide) (by decide)⟩

/-- C3 counterexample: for `cat <<-H` with a body line starting with TWO
tabs, the claim predicts the body word `\tA\n` (all but the first tab
kept); the code instead strips ALL leading tabs and produces `A\n`. -/
theorem c3_counterexample_all_tabs_stripped :
    tokenSummaries 99 "cat <<-H\n\t\tA\n\tH\n".data =
      .ok [(false, "cat".data), (true, "<<-".data), (false, "H".data),
           (true, "\n".data), (false, "A\n".data)] ∧
    [(false, "cat".data), (true, "<<-".data), (false, "H".data),
     (true, "\n".data), (false, "A\n".data)] ≠
      [(false, "cat".data), (true, "<<-".data), (false, "H".data),
       (true, "\n".data), (false, "\tA\n".data)] := by
  exact ⟨rfl, by decide⟩

/-- C3 (amended): in a here-document opened with `<<-`, EVERY leading tab
of each body line is stripped, because the strip condition (at the start
of the body or right after an appended newline) still holds after a tab is
elided: the dispatch step on a leading tab leaves the token parse state
completely unchanged (first conjunct), so it applies again to the next
tab.  In a here-document opened with `<<` (`remove_tabs = false`), every
body character — tabs included — is appended verbatim (second conjunct).
Concretely, a `<<-` body line `\t\tA` lexes as `A\n` and a `<<` body line
`\t\tA` lexes as `\t\tA\n` (last two conjuncts). -/
theorem c3_here_doc_tab_stripping :
    (∀ (fuel : Nat) (term : Option Char) (rest : List Char)
        (cross : CrossTokenParseState) (state : TokenParseState)
        (tag0 : HereTag) (tags : List HereTag),
        cross.here_state = HereState.InHereDocs →
        cross.current_here_tags = tag0 :: tags →
        tag0.remove_tabs = true →
        (!state.started_token || state.current_token.getLast? == some '\n') = true →
        stripSuffix state.current_token tag0.tag = none →
        term ≠ some '\t' →
        next_token_until (fuel + 1) term ('\t' :: rest) cross state =
          next_token_until fuel term rest (cross.consume '\t') state) ∧
    (∀ (fuel : Nat) (term : Option Char) (c : Char) (rest : List Char)
        (cross : CrossTokenParseState) (state : TokenParseState)
        (tag0 : HereTag) (tags : List HereTag) (t0 : List Char),
        cross.here_state = HereState.InHereDocs →
        cross.current_here_tags = tag0 :: tags →
        tag0.remove_tabs = false →
        state.subtoken_stack = [WordSubtoken.Text t0] →
        stripSuffix (state.token_so_far ++ [c]) tag0.tag = none →
        term ≠ some c →
        next_token_until (fuel + 1) term (c :: rest) cross state =
          next_token_until fuel term rest (cross.consume c)
            { state with token_so_far := state.token_so_far ++ [c],
                         subtoken_stack := [.Text (t0 ++ [c])] }) ∧
    tokenSummaries 99 "cat <<-H\n\t\tA\n\tH\n".data =
      .ok [(false, "cat".data), (true, "<<-".data), (false, "H".data),
           (true, "\n".data), (false, "A\n".data)] ∧
    tokenSummaries 99 "cat <<H\n\t\tA\nH\n".data =
      .ok [(false, "cat".data), (true, "<<".data), (false, "H".data),
           (true, "\n".data), (false, "\t\tA\n".data)] := by
  refine ⟨?_, ?_, by rfl, by rfl⟩
  · intro fuel term rest cross state tag0 tags hhere htags hrt hline hstrip hterm
    have hterm' : (term == some '\t') = false := beq_eq_false_iff_ne.mpr hterm
    simp [next_token_until, hhere, htags, hrt, hline, hstrip, hterm',
      hereTagsHeadRemoveTabs, hereDocSuffixCheck, CrossTokenParseState.consume,
      Bool.and_true]
  · intro fuel term c rest cross state tag0 tags t0 hhere htags hrt hstack hstrip hterm
    have hterm' : (term == some c) = false := beq_eq_false_iff_ne.mpr hterm
    simp [next_token_until, hhere, htags, hrt, hstack, hstrip, hterm',
      hereTagsHeadRemoveTabs, hereDocSuffixCheck, CrossTokenParseState.consume,
      TokenParseState.should_start_text_subtoken, TokenParseState.append_char,
      WordSubtoken.appendRaw, TokenParseState.current_token]

/-- Concrete cross-token state inside a `<<-` here-document, for C3. -/
def c3_cross_rt : CrossTokenParseState where
  cursor := { line := 2, column := 1 }
  here_state := .InHereDocs
  current_here_tags := [{ tag := "\nH\n".data, remove_tabs := true }]

/-- Concrete cross-token state inside a `<<` here-document, for C3. -/
def c3_cross_plain : CrossTokenParseState where
  cursor := { line := 2, column := 1 }
  here_state := .InHereDocs
  current_here_tags := [{ tag := "\nH\n".data, remove_tabs := false }]

/-- Concrete mid-body token parse state with one open `Text` frame. -/
def c3_state_x : TokenParseState where
  start_position := { line := 2, column := 1 }
  completed_subtokens := []
  subtoken_stack := [.Text "x".data]
  token_so_far := "x".data
  token_is_operator := false
  in_escape := false
  quote_mode := .None

theorem c3_here_doc_tab_stripping_witness :
    (next_token_until 10 none ('\t' :: "A".data) c3_cross_rt
        (TokenParseState.new { line := 2, column := 1 }) =
      next_token_until 9 none "A".data (c3_cross_rt.consume '\t')
        (TokenParseState.new { line := 2, column := 1 })) ∧
    (next_token_until 10 none ('y' :: "A".data) c3_cross_plain c3_state_x =
      next_token_until 9 none "A".data (c3_cross_plain.consume 'y')
        { c3_state_x with token_so_far := "x".data ++ ['y'],
                          subtoken_stack := [.Text ("x".data ++ ['y'])] }) :=
  ⟨c3_here_doc_tab_stripping.1 9 none "A".data c3_cross_rt
      (TokenParseState.new { line := 2, column := 1 })
      { tag := "\nH\n".data, remove_tabs := true } [] rfl rfl rfl (by rfl)
      (by rfl) (by decide),
   c3_here_doc_tab_stripping.2.1 9 none 'y' "A".data c3_cross_plain c3_state_x
      { tag := "\nH\n".data, remove_tabs := false } [] "x".data rfl rfl rfl
      rfl (by rfl) (by decide)⟩

/-- Successive raw-text appends concatenate. -/
theorem WordSubtoken.appendRaw_appendRaw (sub : WordSubtoken) (a b : List Char) :
    (sub.appendRaw a).appendRaw b = sub.appendRaw (a ++ b) := by
  cases sub <;> simp [WordSubtoken.appendRaw]

/-- Explicit form of a successful `append_char`. -/
theorem TokenParseState.append_char_ok {s : TokenParseState} {c : Char}
    {s' : TokenParseState} (h : s.append_char c = Except.ok s') :
    s' = { s with token_so_far := s.token_so_far ++ [c],
                  subtoken_stack :=
                    s.subtoken_stack.map (fun f => f.appendRaw [c]) } := by
  unfold TokenParseState.append_char at h
  split at h
  · exact absurd h (by simp)
  · injection h with h
    exact h.symm

/-- C8: the backquote scan consumes an opaque span ending in the first
unescaped backquote and records it verbatim: on success the consumed span
is non-empty, ends with a backquote, is appended unchanged to the
accumulated token text and to the raw text of every open frame (in
particular the `CommandSubstitution` frame the caller just opened), and no
subtoken is completed in the process — the span is never sub-tokenized.
The final conjunct checks the end-to-end shape for ``e `x\`y\```: a single
`CommandSubstitution` subtoken whose raw text is the whole span including
both backquotes and the escaped inner backquote, with an EMPTY nested
token list. -/
theorem c8_backquote_span_opaque :
    (∀ (input : List Char) (cross : CrossTokenParseState)
        (state : TokenParseState) (esc : Bool) (loc : SourcePosition)
        (state' : TokenParseState) (rest : List Char)
        (cross' : CrossTokenParseState),
        scanBackquote input cross state esc loc = .ok (state', rest, cross') →
        ∃ span, span ≠ [] ∧ input = span ++ rest ∧
          span.getLast? = some backquoteChar ∧
          state'.token_so_far = state.token_so_far ++ span ∧
          state'.subtoken_stack =
            state.subtoken_stack.map (fun f => f.appendRaw span) ∧
          state'.completed_subtokens = state.completed_subtokens) ∧
    wordShapes 99 "e `x\\`y`".data =
      .ok [[(.text, "e".data, 0)],
           [(.commandSubstitution, "`x\\`y`".data, 0)]] := by
  refine ⟨?_, by rfl⟩
  intro input
  induction input with
  | nil =>
    intro cross state esc loc state' rest cross' h
    simp [scanBackquote] at h
  | cons cib tl ih =>
    intro cross state esc loc state' rest cross' h
    rw [scanBackquote] at h
    rcases happ : state.append_char cib with f | state1
    · rw [happ] at h
      exact absurd h (by simp)
    · rw [happ] at h
      simp only at h
      have hs1 := TokenParseState.append_char_ok happ
      by_cases h1 : (!esc && cib == '\\') = true
      · rw [if_pos h1] at h
        obtain ⟨span', hne, heq, hlast, htsf, hstk, hcmp⟩ :=
          ih (cross.consume cib) state1 true loc state' rest cross' h
        refine ⟨cib :: span', by simp, by simp [heq], ?_, ?_, ?_, ?_⟩
        · cases span' with
          | nil => exact absurd rfl hne
          | cons a l => simpa using hlast
        · simp [htsf, hs1]
        · simp [hstk, hs1, List.map_map, Function.comp,
            WordSubtoken.appendRaw_appendRaw]
        · simp [hcmp, hs1]
      · rw [if_neg h1] at h
        by_cases h2 : (!esc && cib == backquoteChar) = true
        · rw [if_pos h2] at h
          injection h with h
          injection h with ha h
          injection h with hb hc
          subst ha
          subst hb
          subst hc
          refine ⟨[cib], by simp, by simp, ?_, by simp [hs1], by simp [hs1],
            by simp [hs1]⟩
          have hbq : cib = backquoteChar := by
            have h2' := h2
            simp only [Bool.and_eq_true, beq_iff_eq] at h2'
            exact h2'.2
          simp [hbq]
        · rw [if_neg h2] at h
          obtain ⟨span', hne, heq, hlast, htsf, hstk, hcmp⟩ :=
            ih (cross.consume cib) state1 false loc state' rest cross' h
          refine ⟨cib :: span', by simp, by simp [heq], ?_, ?_, ?_, ?_⟩
          · cases span' with
            | nil => exact absurd rfl hne
            | cons a l => simpa using hlast
          · simp [htsf, hs1]
          · simp [hstk, hs1, List.map_map, Function.comp,
              WordSubtoken.appendRaw_appendRaw]
          · simp [hcmp, hs1]

/-- A token-build state right after opening a backquote substitution. -/
def c8_state : TokenParseState where
  start_position := { line := 1, column := 1 }
  completed_subtokens := []
  subtoken_stack := [.CommandSubstitution "`".data []]
  token_so_far := "`".data
  token_is_operator := false
  in_escape := false
  quote_mode := .None

/-- `c8_state` after scanning the span `x\``. -/
def c8_state_done : TokenParseState where
  start_position := { line := 1, column := 1 }
  completed_subtokens := []
  subtoken_stack := [.CommandSubstitution "`x`".data []]
  token_so_far := "`x`".data
  token_is_operator := false
  in_escape := false
  quote_mode := .None

theorem c8_backquote_span_opaque_witness :
    ∃ span, span ≠ [] ∧ "x`".data = span ++ ([] : List Char) ∧
      span.getLast? = some backquoteChar ∧
      c8_state_done.token_so_far = c8_state.token_so_far ++ span ∧
      c8_state_done.subtoken_stack =
        c8_state.subtoken_stack.map (fun f => f.appendRaw span) ∧
      c8_state_done.completed_subtokens = c8_state.completed_subtokens :=
  c8_backquote_span_opaque.1 "x`".data initialCrossState c8_state false
    { line := 1, column := 1 } c8_state_done []
    { cursor := { line := 1, column := 3 }, here_state := .None,
      current_here_tags := [] } (by rfl)

/-- The characters of a list that are not blanks or newlines. -/
def nonBlankChars (l : List Char) : List Char :=
  l.filter (fun c => !(c == ' ' || c == '\t' || c == '\n'))

/-- C2 counterexample: for the here-document input `cat <<H\nX\nH\n`
(which contains no `#` and no backslash, so no comments and no line
continuations are consumed, and the only elided separators admitted by the
claim are blanks), the claim entails that the input and the concatenation
of the emitted raw texts agree on their non-whitespace characters — but
the terminating tag line `H\n` is elided from the here-document body
token, so the non-whitespace characters differ.  The claim's list of
elided separators (blanks, comments, line continuations) cannot account
for the elided here-document terminator line. -/
theorem c2_counterexample_heredoc_terminator :
    tokenSummaries 99 "cat <<H\nX\nH\n".data =
      .ok [(false, "cat".data), (true, "<<".data), (false, "H".data),
           (true, "\n".data), (false, "X\n".data)] ∧
    ('#' ∉ "cat <<H\nX\nH\n".data ∧ '\\' ∉ "cat <<H\nX\nH\n".data) ∧
    nonBlankChars
        ("cat".data ++ "<<".data ++ "H".data ++ "\n".data ++ "X\n".data) ≠
      nonBlankChars "cat <<H\nX\nH\n".data := by
  exact ⟨rfl, by decide, by decide⟩

/-- `Reconstructs consumed appended` : the character list `appended`
(raw token text accumulated by the tokenizer) reconstructs the character
list `consumed` (text consumed from the input) up to the material the
tokenizer elides or collapses.  Every constructor is one elision kind of
the (amended) claim: characters are kept in order (`keep`); a blank that
delimited tokens (or a stripped here-document leading tab) is elided
(`elide_blank`); a single space is inserted by the space-joining raw-text
reconstruction of `$(...)`/`${...}` (`collapse_space`); a consumed
comment is elided (`elide_comment`); a backslash-newline line
continuation is elided (`elide_continuation`); a here-document
terminator-tag line is elided (`elide_line`); an unquoted `$` consumed at
end of input is elided (`elide_dollar`).  The relation over-approximates:
e.g. `elide_dollar` is usable anywhere although the code only ever elides
a `$` immediately before end of input. -/
inductive Reconstructs : List Char → List Char → Prop
  | nil : Reconstructs [] []
  | keep (c : Char) {xs ys : List Char} :
      Reconstructs xs ys → Reconstructs (c :: xs) (c :: ys)
  | elide_blank (b : Char) {xs ys : List Char} :
      is_blank b = true → Reconstructs xs ys → Reconstructs (b :: xs) ys
  | collapse_space {xs ys : List Char} :
      Reconstructs xs ys → Reconstructs xs (' ' :: ys)
  | elide_comment (cs : List Char) {xs ys : List Char} :
      '\n' ∉ cs → Reconstructs xs ys → Reconstructs ('#' :: cs ++ xs) ys
  | elide_continuation {xs ys : List Char} :
      Reconstructs xs ys → Reconstructs ('\\' :: '\n' :: xs) ys
  | elide_line (cs : List Char) {xs ys : List Char} :
      Reconstructs xs ys → Reconstructs (cs ++ '\n' :: xs) ys
  | elide_dollar {xs ys : List Char} :
      Reconstructs xs ys → Reconstructs ('$' :: xs) ys

/-- Reconstruction is reflexive: unchanged text reconstructs itself. -/
theorem Reconstructs.refl : ∀ s : List Char, Reconstructs s s := by
  intro s
  induction s with
  | nil => exact .nil
  | cons c tl ih => exact .keep c ih

/-- Reconstruction derivations concatenate. -/
theorem Reconstructs.append {a b c d : List Char} (h1 : Reconstructs a b)
    (h2 : Reconstructs c d) : Reconstructs (a ++ c) (b ++ d) := by
  induction h1 with
  | nil => simpa using h2
  | keep c0 _ ih => exact .keep c0 ih
  | elide_blank b0 hb _ ih => exact .elide_blank b0 hb ih
  | collapse_space _ ih => exact .collapse_space ih
  | elide_comment cs hn _ ih =>
    simp only [List.cons_append, List.append_assoc]
    exact .elide_comment cs hn ih
  | elide_continuation _ ih => exact .elide_continuation ih
  | elide_line cs _ ih =>
    simp only [List.cons_append, List.append_assoc]
    exact .elide_line cs ih
  | elide_dollar _ ih => exact .elide_dollar ih

/-- Append fully-elided trailing material. -/
theorem Reconstructs.append_elided {a b c : List Char} (h1 : Reconstructs a b)
    (h2 : Reconstructs c []) : Reconstructs (a ++ c) b := by
  simpa using h1.append h2

/-- A reconstruction derivation splits at any split point of the
reconstructed (right-hand) text. -/
theorem Reconstructs.split {a : List Char} :
    ∀ {b c : List Char}, Reconstructs a (b ++ c) →
    ∃ a1 a2, a = a1 ++ a2 ∧ Reconstructs a1 b ∧ Reconstructs a2 c := by
  intro b c h
  generalize hbc : b ++ c = bc at h
  induction h generalizing b c with
  | nil =>
    obtain ⟨rfl, rfl⟩ := List.append_eq_nil.mp hbc
    exact ⟨[], [], rfl, .nil, .nil⟩
  | keep c0 hrec ih =>
    cases b with
    | nil =>
      simp only [List.nil_append] at hbc
      subst hbc
      exact ⟨[], _, rfl, .nil, .keep c0 hrec⟩
    | cons b0 b' =>
      rw [List.cons_append] at hbc
      injection hbc with h1 h2
      subst h1
      obtain ⟨a1, a2, rfl, hr1, hr2⟩ := ih h2
      exact ⟨b0 :: a1, a2, rfl, .keep b0 hr1, hr2⟩
  | elide_blank b0 hb hrec ih =>
    obtain ⟨a1, a2, rfl, hr1, hr2⟩ := ih hbc
    exact ⟨b0 :: a1, a2, rfl, .elide_blank b0 hb hr1, hr2⟩
  | collapse_space hrec ih =>
    cases b with
    | nil =>
      simp only [List.nil_append] at hbc
      subst hbc
      exact ⟨[], _, rfl, .nil, .collapse_space hrec⟩
    | cons b0 b' =>
      rw [List.cons_append] at hbc
      injection hbc with h1 h2
      subst h1
      obtain ⟨a1, a2, rfl, hr1, hr2⟩ := ih h2
      exact ⟨a1, a2, rfl, .collapse_space hr1, hr2⟩
  | elide_comment cs hn hrec ih =>
    obtain ⟨a1, a2, rfl, hr1, hr2⟩ := ih hbc
    refine ⟨'#' :: cs ++ a1, a2, by simp, .elide_comment cs hn hr1, hr2⟩
  | elide_continuation hrec ih =>
    obtain ⟨a1, a2, rfl, hr1, hr2⟩ := ih hbc
    exact ⟨'\\' :: '\n' :: a1, a2, rfl, .elide_continuation hr1, hr2⟩
  | elide_line cs hrec ih =>
    obtain ⟨a1, a2, rfl, hr1, hr2⟩ := ih hbc
    refine ⟨cs ++ '\n' :: a1, a2, by simp, .elide_line cs hr1, hr2⟩
  | elide_dollar hrec ih =>
    obtain ⟨a1, a2, rfl, hr1, hr2⟩ := ih hbc
    exact ⟨'$' :: a1, a2, rfl, .elide_dollar hr1, hr2⟩

/-- Inverting a reconstruction whose right-hand side starts with a kept
(non-space) character: the consumed side is some elidable prefix, that
character, and a remainder reconstructing the rest; the elidable prefix
can be re-attached in front of any derivation. -/
theorem Reconstructs.cons_inv {a : List Char} {c : Char} :
    ∀ {ys : List Char}, Reconstructs a (c :: ys) → c ≠ ' ' →
    ∃ p s, a = p ++ c :: s ∧ Reconstructs s ys ∧
      ∀ u v, Reconstructs u v → Reconstructs (p ++ u) v := by
  intro ys h hc
  generalize hcys : c :: ys = cys at h
  induction h generalizing ys with
  | nil => exact absurd hcys (by simp)
  | keep c0 hrec _ =>
    injection hcys with h1 h2
    subst h1
    subst h2
    exact ⟨[], _, rfl, hrec, fun u v hv => hv⟩
  | elide_blank b0 hb hrec ih =>
    obtain ⟨p, s, rfl, hs, hlift⟩ := ih hcys
    exact ⟨b0 :: p, s, rfl, hs,
      fun u v hv => .elide_blank b0 hb (hlift u v hv)⟩
  | collapse_space hrec ih =>
    injection hcys with h1 h2
    exact absurd h1 hc
  | elide_comment cs hn hrec ih =>
    obtain ⟨p, s, rfl, hs, hlift⟩ := ih hcys
    refine ⟨'#' :: cs ++ p, s, by simp, hs, fun u v hv => ?_⟩
    simp only [List.cons_append, List.append_assoc]
    exact .elide_comment cs hn (hlift u v hv)
  | elide_continuation hrec ih =>
    obtain ⟨p, s, rfl, hs, hlift⟩ := ih hcys
    exact ⟨'\\' :: '\n' :: p, s, rfl, hs,
      fun u v hv => .elide_continuation (hlift u v hv)⟩
  | elide_line cs hrec ih =>
    obtain ⟨p, s, rfl, hs, hlift⟩ := ih hcys
    refine ⟨cs ++ '\n' :: p, s, by simp, hs, fun u v hv => ?_⟩
    simp only [List.cons_append, List.append_assoc]
    exact .elide_line cs (hlift u v hv)
  | elide_dollar hrec ih =>
    obtain ⟨p, s, rfl, hs, hlift⟩ := ih hcys
    exact ⟨'$' :: p, s, rfl, hs, fun u v hv => .elide_dollar (hlift u v hv)⟩
/-- Consumed text whose reconstruction ends in a newline can be fully
elided (it splits into complete lines). -/
theorem Reconstructs.to_nil_of_ends_newline {a ys : List Char}
    (h : Reconstructs a (ys ++ ['\n'])) : Reconstructs a [] := by
  obtain ⟨a1, a2, rfl, h1, h2⟩ := h.split
  obtain ⟨p, s, rfl, hs, _⟩ := h2.cons_inv (by decide)
  have : a1 ++ (p ++ '\n' :: s) = (a1 ++ p) ++ '\n' :: s := by simp
  rw [this]
  exact .elide_line (a1 ++ p) hs

/-- Rewinding the here-document terminator strip: if the accumulated text
ends with a full wrapped tag `\n mid \n`, the same consumed text also
reconstructs the stripped form ending in a single newline. -/
theorem Reconstructs.strip_tag {a w mid : List Char}
    (h : Reconstructs a (w ++ ('\n' :: mid ++ ['\n']))) :
    Reconstructs a (w ++ ['\n']) := by
  obtain ⟨a1, a2, rfl, h1, h2⟩ := h.split
  obtain ⟨p, s, rfl, hs, hlift⟩ := h2.cons_inv (by decide)
  have hsnil : Reconstructs s [] := hs.to_nil_of_ends_newline
  exact h1.append (hlift ('\n' :: s) ['\n'] (.keep '\n' hsnil))

/-- `delimit_current_subtoken` moves frames around but never touches the
accumulated raw text or the operator flag. -/
theorem TokenParseState.delimit_current_subtoken_token_so_far
    (s : TokenParseState) :
    s.delimit_current_subtoken.token_so_far = s.token_so_far ∧
    s.delimit_current_subtoken.token_is_operator = s.token_is_operator ∧
    s.delimit_current_subtoken.start_position = s.start_position := by
  unfold TokenParseState.delimit_current_subtoken
  split
  · exact ⟨rfl, rfl, rfl⟩
  · split
    · exact ⟨rfl, rfl, rfl⟩
    · exact ⟨rfl, rfl, rfl⟩

/-- Iterated frame-delimiting preserves the raw text and operator flag. -/
theorem TokenParseState.popAllAux_token_so_far :
    ∀ (n : Nat) (s : TokenParseState),
    (TokenParseState.popAllAux n s).token_so_far = s.token_so_far ∧
    (TokenParseState.popAllAux n s).token_is_operator = s.token_is_operator := by
  intro n
  induction n with
  | zero => exact fun s => ⟨rfl, rfl⟩
  | succ n ih =>
    intro s
    have h1 := ih s.delimit_current_subtoken
    have h2 := s.delimit_current_subtoken_token_so_far
    exact ⟨by rw [TokenParseState.popAllAux, h1.1, h2.1],
           by rw [TokenParseState.popAllAux, h1.2, h2.2.1]⟩

/-- The emitted token's raw text is exactly the accumulated raw text. -/
theorem TokenParseState.pop_to_str (s : TokenParseState)
    (pos : SourcePosition) : (s.pop pos).to_str = s.token_so_far := by
  have h := TokenParseState.popAllAux_token_so_far s.subtoken_stack.length s
  simp only [TokenParseState.pop]
  split
  · simpa [Token.to_str] using h.1
  · simpa [Token.to_str] using h.1

/-- Well-formedness of the pending here-tag queue: every queued tag is a
delimiter wrapped in newlines (which `delimit_current_token` guarantees on
push). -/
def TagsWF (cross : CrossTokenParseState) : Prop :=
  ∀ tag ∈ cross.current_here_tags, ∃ mid, tag.tag = '\n' :: mid ++ ['\n']

/-- What a successful `delimit_current_token` yields: the here-tag queue
stays well formed, the reason is passed through, and the emitted token (if
any) carries exactly the accumulated raw text; no token is emitted exactly
when nothing was accumulated. -/
theorem TokenParseState.delimit_current_token_ok {s : TokenParseState}
    {reason : TokenEndReason} {cross : CrossTokenParseState}
    {res : TokenizeResult} {cross2 : CrossTokenParseState}
    (h : s.delimit_current_token reason cross = .ok (res, cross2))
    (hwf : TagsWF cross) :
    TagsWF cross2 ∧ res.reason = reason ∧
      ((res.token = none ∧ s.token_so_far = []) ∨
        (∃ t, res.token = some t ∧ t.to_str = s.token_so_far)) := by
  unfold TokenParseState.delimit_current_token at h
  split at h
  · rename_i hns
    injection h with h
    injection h with h1 h2
    subst h2
    rw [← h1]
    refine ⟨hwf, rfl, .inl ⟨rfl, ?_⟩⟩
    have hempty : s.token_so_far.isEmpty = true := by
      simpa [TokenParseState.started_token] using hns
    exact List.isEmpty_iff.mp hempty
  · rename_i hst
    split at h
    · injection h with h
      injection h with h1 h2
      subst h2
      rw [← h1]
      exact ⟨hwf, rfl, .inr ⟨_, rfl, s.pop_to_str _⟩⟩
    · rename_i remove_tabs
      split at h
      · exact absurd h (by simp)
      · split at h
        · exact absurd h (by simp)
        · injection h with h
          injection h with h1 h2
          subst h2
          rw [← h1]
          refine ⟨?_, rfl, .inr ⟨_, rfl, s.pop_to_str _⟩⟩
          intro tag htag
          simp only [List.mem_append, List.mem_singleton] at htag
          rcases htag with htag | rfl
          · exact hwf tag htag
          · exact ⟨s.current_token, rfl⟩
    · injection h with h
      injection h with h1 h2
      subst h2
      rw [← h1]
      refine ⟨?_, rfl, .inr ⟨_, rfl, s.pop_to_str _⟩⟩
      split
      · exact hwf
      · exact hwf
    · injection h with h
      injection h with h1 h2
      subst h2
      rw [← h1]
      exact ⟨hwf, rfl, .inr ⟨_, rfl, s.pop_to_str _⟩⟩

/-- A successful `stripSuffix` decomposes the string. -/
theorem stripSuffix_eq {s suffix w : List Char}
    (h : stripSuffix s suffix = some w) : s = w ++ suffix := by
  unfold stripSuffix at h
  split at h
  · rename_i hsuf
    injection h with h
    obtain ⟨p, rfl⟩ := (List.isSuffixOf_iff_suffix.mp hsuf)
    subst h
    simp
  · exact absurd h (by simp)

/-- Explicit form of a successful `append_str`. -/
theorem TokenParseState.append_str_ok {s : TokenParseState} {str : List Char}
    {s' : TokenParseState} (h : s.append_str str = Except.ok s') :
    s' = { s with token_so_far := s.token_so_far ++ str,
                  subtoken_stack :=
                    s.subtoken_stack.map (fun f => f.appendRaw str) } := by
  unfold TokenParseState.append_str at h
  split at h
  · exact absurd h (by simp)
  · injection h with h
    exact h.symm

/-- `start_subtoken` never changes the accumulated raw text. -/
theorem TokenParseState.start_subtoken_token_so_far (s : TokenParseState)
    (sub : WordSubtoken) :
    (s.start_subtoken sub).token_so_far = s.token_so_far := by
  unfold TokenParseState.start_subtoken
  split
  · rfl
  · rfl
  · exact (TokenParseState.delimit_current_subtoken_token_so_far _).1
  · rfl

/-- Transport along a successful here-document suffix check: the queue
stays well formed and any reconstruction of the accumulated raw text is
also a reconstruction of the (possibly tag-stripped) raw text after the
check. -/
theorem hereDocSuffixCheck_ok {cross : CrossTokenParseState}
    {state : TokenParseState} {cross2 : CrossTokenParseState}
    {state2 : TokenParseState}
    (h : hereDocSuffixCheck cross state = .ok (cross2, state2))
    (hwf : TagsWF cross) :
    TagsWF cross2 ∧
      (state2.token_so_far = [] → state.token_so_far = []) ∧
      ∀ C, Reconstructs C state.token_so_far →
        Reconstructs C state2.token_so_far := by
  unfold hereDocSuffixCheck at h
  split at h
  · rename_i hguard
    split at h
    · injection h with h
      injection h with h1 h2
      subst h1
      subst h2
      exact ⟨hwf, fun he => he, fun C hC => hC⟩
    · rename_i tag0 restTags htags
      split at h
      · injection h with h
        injection h with h1 h2
        subst h1
        subst h2
        exact ⟨hwf, fun he => he, fun C hC => hC⟩
      · rename_i w hstrip
        simp only at h
        rcases happ : (state.replace_with_here_doc w).append_char '\n' with f | stf
        · rw [happ] at h
          exact absurd h (by simp)
        · rw [happ] at h
          injection h with h
          injection h with h1 h2
          subst h1
          subst h2
          have hdecomp : state.token_so_far = w ++ tag0.tag :=
            stripSuffix_eq hstrip
          obtain ⟨mid, hmid⟩ := hwf tag0 (by rw [htags]; exact List.mem_cons_self _ _)
          have hstf := TokenParseState.append_char_ok happ
          have htsf2 : stf.token_so_far = w ++ ['\n'] := by
            rw [hstf]
            simp [TokenParseState.replace_with_here_doc]
          refine ⟨?_, ?_, ?_⟩
          · intro tag htag
            apply hwf
            rw [htags]
            split at htag
            · exact List.mem_cons_of_mem _ htag
            · exact List.mem_cons_of_mem _ htag
          · intro he
            rw [htsf2] at he
            exact absurd he (by simp)
          · intro C hC
            rw [htsf2]
            rw [hdecomp, hmid] at hC
            exact hC.strip_tag
  · injection h with h
    injection h with h1 h2
    subst h1
    subst h2
    exact ⟨hwf, fun he => he, fun C hC => hC⟩

/-- The comment skip consumes a newline-free prefix and stops at the
newline or end of input. -/
theorem skipComment_spec :
    ∀ (input : List Char) (cross : CrossTokenParseState),
    ∃ cs, input = cs ++ (skipComment input cross).1 ∧ '\n' ∉ cs := by
  intro input
  induction input with
  | nil => exact fun cross => ⟨[], rfl, by simp⟩
  | cons c rest ih =>
    intro cross
    rw [skipComment]
    by_cases hc : (c == '\n') = true
    · rw [if_pos hc]
      exact ⟨[], rfl, by simp⟩
    · rw [if_neg hc]
      obtain ⟨cs, heq, hn⟩ := ih (cross.consume c)
      refine ⟨c :: cs, by rw [List.cons_append, ← heq], ?_⟩
      intro hmem
      rcases List.mem_cons.mp hmem with rfl | hmem
      · exact hc (by simp)
      · exact hn hmem

/-- The backquote scan consumes exactly the span it appends, and only ever
advances the cursor of the cross-token state. -/
theorem scanBackquote_spec :
    ∀ (input : List Char) (cross : CrossTokenParseState)
        (state : TokenParseState) (esc : Bool) (loc : SourcePosition)
        (state' : TokenParseState) (rest : List Char)
        (cross' : CrossTokenParseState),
    scanBackquote input cross state esc loc = .ok (state', rest, cross') →
    cross'.here_state = cross.here_state ∧
    cross'.current_here_tags = cross.current_here_tags ∧
    ∃ span, input = span ++ rest ∧
      state'.token_so_far = state.token_so_far ++ span := by
  intro input
  induction input with
  | nil =>
    intro cross state esc loc state' rest cross' h
    simp [scanBackquote] at h
  | cons cib tl ih =>
    intro cross state esc loc state' rest cross' h
    rw [scanBackquote] at h
    rcases happ : state.append_char cib with f | state1
    · rw [happ] at h
      exact absurd h (by simp)
    · rw [happ] at h
      simp only at h
      have hs1 := TokenParseState.append_char_ok happ
      by_cases h1 : (!esc && cib == '\\') = true
      · rw [if_pos h1] at h
        obtain ⟨hhs, hht, span', heq, htsf⟩ := ih _ _ _ _ _ _ _ h
        refine ⟨by simpa [CrossTokenParseState.consume] using hhs,
          by simpa [CrossTokenParseState.consume] using hht,
          cib :: span', by simp [heq], ?_⟩
        simp [htsf, hs1]
      · rw [if_neg h1] at h
        by_cases h2 : (!esc && cib == backquoteChar) = true
        · rw [if_pos h2] at h
          injection h with h
          injection h with ha h
          injection h with hb hc
          subst ha
          subst hb
          subst hc
          exact ⟨by simp [CrossTokenParseState.consume],
            by simp [CrossTokenParseState.consume],
            [cib], by simp, by simp [hs1]⟩
        · rw [if_neg h2] at h
          obtain ⟨hhs, hht, span', heq, htsf⟩ := ih _ _ _ _ _ _ _ h
          refine ⟨by simpa [CrossTokenParseState.consume] using hhs,
            by simpa [CrossTokenParseState.consume] using hht,
            cib :: span', by simp [heq], ?_⟩
          simp [htsf, hs1]

/-- Consuming a character only moves the cursor: tag well-formedness is
untouched. -/
theorem TagsWF_consume {cross : CrossTokenParseState} (h : TagsWF cross)
    (c : Char) : TagsWF (cross.consume c) := h

/-- The comment skip only advances the cursor of the cross-token state. -/
theorem skipComment_cross :
    ∀ (input : List Char) (cross : CrossTokenParseState),
    (skipComment input cross).2.here_state = cross.here_state ∧
    (skipComment input cross).2.current_here_tags = cross.current_here_tags := by
  intro input
  induction input with
  | nil => exact fun cross => ⟨rfl, rfl⟩
  | cons c rest ih =>
    intro cross
    rw [skipComment]
    by_cases hc : (c == '\n') = true
    · rw [if_pos hc]
      exact ⟨rfl, rfl⟩
    · rw [if_neg hc]
      exact ih (cross.consume c)

/-- The raw text carried by a tokenize result: the emitted token's raw
text, or nothing when no token was emitted. -/
def tokenRawOrNil (res : TokenizeResult) : List Char :=
  match res.token with
  | some t => t.to_str
  | none => []

/-- Reconstruction invariant of one `next_token_until` call: the here-tag
queue stays well formed; a token-less result means nothing was accumulated
(and, at top level, that the input is exhausted); and the call consumes a
prefix of the input that, appended to any reconstruction of the entry
text, reconstructs the emitted raw text. -/
def NTInv (fuel : Nat) : Prop :=
  ∀ (term : Option Char) (input : List Char) (cross : CrossTokenParseState)
      (state : TokenParseState) (res : TokenizeResult) (rest : List Char)
      (cross' : CrossTokenParseState),
    TagsWF cross →
    next_token_until fuel term input cross state = .ok (res, rest, cross') →
    TagsWF cross' ∧
      (res.token = none → state.token_so_far = [] ∧ (term = none → rest = [])) ∧
      ∃ consumed, input = consumed ++ rest ∧
        ∀ C, Reconstructs C state.token_so_far →
          Reconstructs (C ++ consumed) (tokenRawOrNil res)

/-- Reconstruction invariant of the `$(...)` collection loop. -/
def CSInv (fuel : Nat) : Prop :=
  ∀ (input : List Char) (cross : CrossTokenParseState)
      (state : TokenParseState) (tokens : List Token)
      (state' : TokenParseState) (tokens' : List Token) (input' : List Char)
      (cross' : CrossTokenParseState),
    TagsWF cross →
    command_substitution_loop fuel input cross state tokens =
      .ok (state', tokens', input', cross') →
    TagsWF cross' ∧
      (∃ app, state'.token_so_far = state.token_so_far ++ app) ∧
      ∃ consumed, input = consumed ++ input' ∧
        ∀ C, Reconstructs C state.token_so_far →
          Reconstructs (C ++ consumed) state'.token_so_far

/-- Reconstruction invariant of the `${...}` collection loop. -/
def BRInv (fuel : Nat) : Prop :=
  ∀ (input : List Char) (cross : CrossTokenParseState)
      (state : TokenParseState) (state' : TokenParseState)
      (input' : List Char) (cross' : CrossTokenParseState),
    TagsWF cross →
    braced_expansion_loop fuel input cross state =
      .ok (state', input', cross') →
    TagsWF cross' ∧
      (∃ app, state'.token_so_far = state.token_so_far ++ app) ∧
      ∃ consumed, input = consumed ++ input' ∧
        ∀ C, Reconstructs C state.token_so_far →
          Reconstructs (C ++ consumed) state'.token_so_far

/-- Small helpers for chaining reconstructions while consuming. -/
theorem Reconstructs.snoc_keep {C t : List Char} (c : Char)
    (h : Reconstructs C t) : Reconstructs (C ++ [c]) (t ++ [c]) :=
  h.append (.keep c .nil)

/-- Consume a blank without appending it. -/
theorem Reconstructs.snoc_blank {C t : List Char} {c : Char}
    (hb : is_blank c = true) (h : Reconstructs C t) :
    Reconstructs (C ++ [c]) t :=
  h.append_elided (.elide_blank c hb .nil)

/-- Tag well-formedness transfers along equal queues. -/
theorem TagsWF_of_eq {cross2 cross : CrossTokenParseState}
    (he : cross2.current_here_tags = cross.current_here_tags)
    (h : TagsWF cross) : TagsWF cross2 :=
  fun tag ht => h tag (he ▸ ht)

/-- Packaging of one continue-step of the dispatch loop: the here-document
suffix check ran on the iteration's final token state `stY`, and the loop
recursed at smaller fuel.  The per-branch obligations are the
reconstruction chain from the entry text to `stY` over the characters
`pre` consumed by the iteration, and the emptiness back-transport. -/
theorem step_package {fuel : Nat} (ihN : NTInv fuel) {term : Option Char}
    {inp2 : List Char} {crossX : CrossTokenParseState} {stY : TokenParseState}
    {cross3 : CrossTokenParseState} {state3 : TokenParseState}
    {res : TokenizeResult} {rest : List Char} {cross' : CrossTokenParseState}
    {stateTsf pre : List Char}
    (hwfX : TagsWF crossX)
    (hsc : hereDocSuffixCheck crossX stY = .ok (cross3, state3))
    (h : next_token_until fuel term inp2 cross3 state3 = .ok (res, rest, cross'))
    (hchain : ∀ C, Reconstructs C stateTsf →
      Reconstructs (C ++ pre) stY.token_so_far)
    (hback : stY.token_so_far = [] → stateTsf = []) :
    TagsWF cross' ∧
      (res.token = none → stateTsf = [] ∧ (term = none → rest = [])) ∧
      ∃ consumed, pre ++ inp2 = consumed ++ rest ∧
        ∀ C, Reconstructs C stateTsf →
          Reconstructs (C ++ consumed) (tokenRawOrNil res) := by
  obtain ⟨hwf3, hback2, htrans⟩ := hereDocSuffixCheck_ok hsc hwfX
  obtain ⟨hwf', hnone, consumed', heq', hrec'⟩ :=
    ihN _ _ _ _ _ _ _ hwf3 h
  refine ⟨hwf', fun hn => ⟨hback (hback2 (hnone hn).1), (hnone hn).2⟩,
    pre ++ consumed', by simp [heq'], fun C hC => ?_⟩
  have := hrec' (C ++ pre) (htrans _ (hchain C hC))
  simpa [List.append_assoc] using this

/-- Variant of `step_package` that takes the iteration-final accumulated
raw text through an explicit equation, so the final state need not be
spelled out at the call site. -/
theorem step_package2 {fuel : Nat} (ihN : NTInv fuel) {term : Option Char}
    {inp2 : List Char} {crossX : CrossTokenParseState} {stY : TokenParseState}
    {cross3 : CrossTokenParseState} {state3 : TokenParseState}
    {res : TokenizeResult} {rest : List Char} {cross' : CrossTokenParseState}
    {stateTsf pre tsfY : List Char}
    (hwfX : TagsWF crossX)
    (hsc : hereDocSuffixCheck crossX stY = .ok (cross3, state3))
    (h : next_token_until fuel term inp2 cross3 state3 = .ok (res, rest, cross'))
    (htsfY : stY.token_so_far = tsfY)
    (hchain : ∀ C, Reconstructs C stateTsf →
      Reconstructs (C ++ pre) tsfY)
    (hback : tsfY = [] → stateTsf = []) :
    TagsWF cross' ∧
      (res.token = none → stateTsf = [] ∧ (term = none → rest = [])) ∧
      ∃ consumed, pre ++ inp2 = consumed ++ rest ∧
        ∀ C, Reconstructs C stateTsf →
          Reconstructs (C ++ consumed) (tokenRawOrNil res) := by
  refine step_package ihN hwfX hsc h (fun C hC => ?_) (fun he => ?_)
  · rw [htsfY]
    exact hchain C hC
  · rw [htsfY] at he
    exact hback he

/-- Packaging of a token-finalizing return of the dispatch loop. -/
theorem delimit_package {state : TokenParseState} {reason : TokenEndReason}
    {cross : CrossTokenParseState} {res0 : TokenizeResult}
    {cross0 : CrossTokenParseState}
    (hdel : state.delimit_current_token reason cross = .ok (res0, cross0))
    (hwf : TagsWF cross) :
    TagsWF cross0 ∧ (res0.token = none → state.token_so_far = []) ∧
      ∀ C, Reconstructs C state.token_so_far →
        Reconstructs C (tokenRawOrNil res0) := by
  obtain ⟨hwf0, _, hopt⟩ := TokenParseState.delimit_current_token_ok hdel hwf
  refine ⟨hwf0, ?_, ?_⟩
  · intro hn
    rcases hopt with ⟨_, htsf⟩ | ⟨t, hsome, _⟩
    · exact htsf
    · rw [hn] at hsome
      exact Option.noConfusion hsome
  · intro C hC
    rcases hopt with ⟨hnone, htsf⟩ | ⟨t, hsome, htstr⟩
    · rw [htsf] at hC
      simpa [tokenRawOrNil, hnone] using hC
    · simpa [tokenRawOrNil, hsome, htstr] using hC

/-- Raw-text effect of the common "start a `Text` frame if needed, then
append the character" step. -/
theorem maybe_start_append_tsf {state : TokenParseState} {c : Char}
    {st2 : TokenParseState}
    (h : (if state.should_start_text_subtoken = true then
            state.start_subtoken (.Text []) else state).append_char c =
          Except.ok st2) :
    st2.token_so_far = state.token_so_far ++ [c] := by
  rw [TokenParseState.append_char_ok h]
  split
  · simp [TokenParseState.start_subtoken_token_so_far]
  · simp

theorem reconstruction_invariant : ∀ fuel : Nat, NTInv fuel ∧ CSInv fuel ∧ BRInv fuel := by
  intro fuel
  induction fuel with
  | zero =>
    refine ⟨?_, ?_, ?_⟩
    · intro term input cross state res rest cross' hwf h
      rw [next_token_until] at h
      exact absurd h (by simp)
    · intro input cross state tokens state' tokens' input' cross' hwf h
      rw [command_substitution_loop] at h
      exact absurd h (by simp)
    · intro input cross state state' input' cross' hwf h
      rw [braced_expansion_loop] at h
      exact absurd h (by simp)
  | succ fuel ih =>
    obtain ⟨ihN, ihC, ihB⟩ := ih
    refine ⟨?_, ?_, ?_⟩
    · -- NTInv (fuel+1)
      intro term input cross state res rest cross' hwf h
      cases input with
      | nil =>
        rw [next_token_until] at h
        split at h
        · exact Except.noConfusion h
        · split at h
          · exact Except.noConfusion h
          · exact Except.noConfusion h
          · split at h
            · exact Except.noConfusion h
            · rcases hdel : state.delimit_current_token .EndOfInput cross
                  with f | p
              · rw [hdel] at h
                exact Except.noConfusion h
              · rcases p with ⟨res0, cross0⟩
                rw [hdel] at h
                simp only at h
                injection h with h
                injection h with h1 h
                injection h with h2 h3
                subst h1
                subst h2
                subst h3
                obtain ⟨hwf0, hback0, hrec0⟩ := delimit_package hdel hwf
                refine ⟨hwf0, fun hn => ⟨hback0 hn, fun _ => rfl⟩,
                  [], rfl, fun C hC => by simpa using hrec0 C hC⟩
      | cons c rest0 =>
        by_cases hB : (state.unquoted && term == some c) = true
        · -- branch: specified terminating char (not consumed)
          rw [next_token_until] at h
          rw [if_pos hB] at h
          rcases hdel : state.delimit_current_token .SpecifiedTerminatingChar
              cross with f | p
          · rw [hdel] at h
            exact Except.noConfusion h
          · rcases p with ⟨res0, cross0⟩
            rw [hdel] at h
            simp only at h
            injection h with h
            injection h with h1 h
            injection h with h2 h3
            subst h1
            subst h2
            subst h3
            obtain ⟨hwf0, hback0, hrec0⟩ := delimit_package hdel hwf
            have hB2 := hB
            simp only [Bool.and_eq_true] at hB2
            have hterm : term = some c := eq_of_beq hB2.2
            refine ⟨hwf0, fun hn => ⟨hback0 hn,
                fun htn => absurd (htn ▸ hterm) (by simp)⟩,
              [], rfl, fun C hC => by simpa using hrec0 C hC⟩
        · by_cases hHD : cross.here_state = HereState.InHereDocs
          · -- branch: inside a here-document body
            rw [next_token_until, if_neg hB, if_pos hHD] at h
            simp only at h
            split at h
            · -- leading tab elided
              rename_i hskip
              split at h
              · exact Except.noConfusion h
              · rename_i p cross3 state3 hsc
                have hblank : is_blank c = true := by
                  simp only [Bool.and_eq_true] at hskip
                  rw [eq_of_beq hskip.2]
                  rfl
                exact step_package ihN (TagsWF_consume hwf c) hsc h
                  (fun C hC => hC.snoc_blank hblank) (fun he => he)
            · -- body character appended verbatim
              rename_i hskip
              split at h
              · exact Except.noConfusion h
              · rename_i st2 happ
                split at h
                · exact Except.noConfusion h
                · rename_i p cross3 state3 hsc
                  have htsf2 := maybe_start_append_tsf happ
                  exact step_package ihN (TagsWF_consume hwf c) hsc h
                    (fun C hC => htsf2 ▸ hC.snoc_keep c)
                    (fun he => absurd (htsf2 ▸ he) (by simp))
          · by_cases hOP : state.token_is_operator = true
            · -- branch: operator token in progress
              rw [next_token_until, if_neg hB, if_neg hHD, if_pos hOP] at h
              simp only at h
              split at h
              · -- extend by maximal munch
                rename_i hext
                split at h
                · exact Except.noConfusion h
                · rename_i st2 happ
                  split at h
                  · exact Except.noConfusion h
                  · rename_i p cross3 state3 hsc
                    have htsf2 := TokenParseState.append_char_ok happ
                    have htsf2' : st2.token_so_far =
                        state.token_so_far ++ [c] := by
                      rw [htsf2]
                    exact step_package ihN (TagsWF_consume hwf c) hsc h
                      (fun C hC => htsf2' ▸ hC.snoc_keep c)
                      (fun he => absurd (htsf2' ▸ he) (by simp))
              · -- finalize the operator, arming here-document state
                rename_i hext
                split at h
                · exact Except.noConfusion h
                · rename_i hst
                  split at h
                  · exact Except.noConfusion h
                  · rename_i p res0 cross0 hdel
                    injection h with h
                    injection h with h1 h
                    injection h with h2 h3
                    subst h1
                    subst h2
                    subst h3
                    have hwfA : TagsWF (if state.is_specific_operator "<<".data
                        then { cross with
                                here_state := .NextTokenIsHereTag false }
                        else if state.is_specific_operator "<<-".data then
                          { cross with here_state := .NextTokenIsHereTag true }
                        else cross) := by
                      split
                      · exact hwf
                      · split
                        · exact hwf
                        · exact hwf
                    obtain ⟨hwf0, hback0, hrec0⟩ := delimit_package hdel hwfA
                    refine ⟨hwf0, fun hn => ?_, [], rfl,
                      fun C hC => by simpa using hrec0 C hC⟩
                    exfalso
                    have htsf := hback0 hn
                    simp [TokenParseState.started_token, htsf] at hst
            · by_cases hQ : does_char_newly_affect_quoting state c = true
              · -- branch: quoting character
                rw [next_token_until, if_neg hB, if_neg hHD, if_neg hOP,
                  if_pos hQ] at h
                simp only at h
                split at h
                · -- backslash
                  rename_i hbs
                  have hcbs : c = '\\' := eq_of_beq hbs
                  split at h
                  · -- line continuation
                    rename_i rest2 heqr
                    split at h
                    · exact Except.noConfusion h
                    · rename_i p cross3 state3 hsc
                      subst hcbs
                      refine step_package ihN (TagsWF_consume
                        (TagsWF_consume hwf _) _) hsc h
                        (fun C hC =>
                          hC.append_elided (Reconstructs.elide_continuation .nil))
                        (fun he => he)
                  · -- open an escape sequence
                    rename_i hnotnl
                    split at h
                    · exact Except.noConfusion h
                    · rename_i st2 happ
                      split at h
                      · exact Except.noConfusion h
                      · rename_i p cross3 state3 hsc
                        have htsf2 : st2.token_so_far =
                            state.token_so_far ++ [c] := by
                          rw [TokenParseState.append_char_ok happ]
                          simp [TokenParseState.start_subtoken_token_so_far]
                        exact step_package ihN (TagsWF_consume hwf c) hsc h
                          (fun C hC => htsf2 ▸ hC.snoc_keep c)
                          (fun he => absurd (htsf2 ▸ he) (by simp))
                · rename_i hbs
                  split at h
                  · -- open single quote
                    rename_i hsq
                    split at h
                    · exact Except.noConfusion h
                    · rename_i st2 happ
                      split at h
                      · exact Except.noConfusion h
                      · rename_i p cross3 state3 hsc
                        have htsf2 : st2.token_so_far =
                            state.token_so_far ++ [c] := by
                          rw [TokenParseState.append_char_ok happ]
                          simp [TokenParseState.start_subtoken_token_so_far]
                        exact step_package ihN (TagsWF_consume hwf c) hsc h
                          (fun C hC => htsf2 ▸ hC.snoc_keep c)
                          (fun he => absurd (htsf2 ▸ he) (by simp))
                  · rename_i hsq
                    split at h
                    · -- open double quote
                      rename_i hdq
                      split at h
                      · exact Except.noConfusion h
                      · rename_i st2 happ
                        split at h
                        · exact Except.noConfusion h
                        · rename_i p cross3 state3 hsc
                          have htsf2 : st2.token_so_far =
                              state.token_so_far ++ [c] := by
                            rw [TokenParseState.append_char_ok happ]
                            simp [TokenParseState.start_subtoken_token_so_far]
                          exact step_package ihN (TagsWF_consume hwf c) hsc h
                            (fun C hC => htsf2 ▸ hC.snoc_keep c)
                            (fun he => absurd (htsf2 ▸ he) (by simp))
                    · -- unreachable quoting fallthrough: loop on fuel
                      rename_i hdq
                      split at h
                      · exact Except.noConfusion h
                      · rename_i p cross3 state3 hsc
                        exact step_package ihN hwf hsc h
                          (fun C hC =>
                            (by simpa using hC :
                              Reconstructs (C ++ []) state.token_so_far))
                          (fun he => he)
              · by_cases hSQ : (!state.in_escape && state.quote_mode.isSingle &&
                    c == '\'') = true
                · -- branch: close single quote
                  rw [next_token_until, if_neg hB, if_neg hHD, if_neg hOP,
                    if_neg hQ, if_pos hSQ] at h
                  simp only at h
                  split at h
                  · exact Except.noConfusion h
                  · rename_i st2 happ
                    split at h
                    · exact Except.noConfusion h
                    · rename_i p cross3 state3 hsc
                      have htsf2 : st2.delimit_current_subtoken.token_so_far =
                          state.token_so_far ++ [c] := by
                        rw [(TokenParseState.delimit_current_subtoken_token_so_far
                          st2).1, TokenParseState.append_char_ok happ]
                      exact step_package ihN (TagsWF_consume hwf c) hsc h
                        (fun C hC => htsf2 ▸ hC.snoc_keep c)
                        (fun he => absurd (htsf2 ▸ he) (by simp))
                · by_cases hDQ : (!state.in_escape && state.quote_mode.isDouble &&
                      c == '\"') = true
                  · -- branch: close double quote
                    rw [next_token_until, if_neg hB, if_neg hHD, if_neg hOP,
                      if_neg hQ, if_neg hSQ, if_pos hDQ] at h
                    simp only at h
                    split at h
                    · exact Except.noConfusion h
                    · rename_i st2 happ
                      split at h
                      · exact Except.noConfusion h
                      · rename_i p cross3 state3 hsc
                        have hpre : (match state.subtoken_stack with
                            | WordSubtoken.DoubleQuotedSequence _ _ :: _ => state
                            | _ => state.delimit_current_subtoken).token_so_far =
                            state.token_so_far := by
                          split
                          · rfl
                          · exact (TokenParseState.delimit_current_subtoken_token_so_far
                              state).1
                        have htsf2 : st2.delimit_current_subtoken.token_so_far =
                            state.token_so_far ++ [c] := by
                          rw [(TokenParseState.delimit_current_subtoken_token_so_far
                            st2).1, TokenParseState.append_char_ok happ]
                          simp [hpre]
                        exact step_package ihN (TagsWF_consume hwf c) hsc h
                          (fun C hC => htsf2 ▸ hC.snoc_keep c)
                          (fun he => absurd (htsf2 ▸ he) (by simp))
                  · by_cases hESC : state.in_escape = true
                    · -- branch: end of escape sequence
                      rw [next_token_until, if_neg hB, if_neg hHD, if_neg hOP,
                        if_neg hQ, if_neg hSQ, if_neg hDQ, if_pos hESC] at h
                      simp only at h
                      split at h
                      · exact Except.noConfusion h
                      · rename_i st2 happ
                        split at h
                        · exact Except.noConfusion h
                        · rename_i p cross3 state3 hsc
                          have htsf2 : st2.delimit_current_subtoken.token_so_far =
                              state.token_so_far ++ [c] := by
                            rw [(TokenParseState.delimit_current_subtoken_token_so_far
                              st2).1, TokenParseState.append_char_ok happ]
                          exact step_package ihN (TagsWF_consume hwf c) hsc h
                            (fun C hC => htsf2 ▸ hC.snoc_keep c)
                            (fun he => absurd (htsf2 ▸ he) (by simp))
                    · by_cases hSUB : ((state.unquoted ||
                          state.quote_mode.isDouble && !state.in_escape) &&
                          (c == '$' || c == backquoteChar)) = true
                      · -- branch: command substitution / expansion / backquote
                        rw [next_token_until, if_neg hB, if_neg hHD, if_neg hOP,
                          if_neg hQ, if_neg hSQ, if_neg hDQ, if_neg hESC,
                          if_pos hSUB] at h
                        simp only at h
                        split at h
                        · -- a dollar sign
                          rename_i hdol
                          have hcd : c = '$' := eq_of_beq hdol
                          subst hcd
                          cases rest0 with
                          | nil =>
                            simp only at h
                            split at h
                            · exact Except.noConfusion h
                            · rename_i p cross3 state3 hsc
                              exact step_package ihN (TagsWF_consume hwf _)
                                hsc h
                                (fun C hC => hC.append_elided
                                  (Reconstructs.elide_dollar .nil))
                                (fun he => he)
                          | cons cads rest2 =>
                            simp only at h
                            split at h
                            · -- $( : recursive command substitution
                              rename_i hpar
                              have hcads : cads = '(' := eq_of_beq hpar
                              split at h
                              · exact Except.noConfusion h
                              · rename_i st2 happ1
                                split at h
                                · exact Except.noConfusion h
                                · rename_i st3 happ2
                                  split at h
                                  · exact Except.noConfusion h
                                  · rename_i q st4 toks input3 cross3 hloop
                                    have htsf2 : st2.token_so_far =
                                        state.token_so_far ++ ['$'] := by
                                      rw [TokenParseState.append_char_ok happ1]
                                      simp [TokenParseState.start_subtoken_token_so_far]
                                    have htsf3 : st3.token_so_far =
                                        state.token_so_far ++ ['$', cads] := by
                                      rw [TokenParseState.append_char_ok happ2, htsf2]
                                      simp
                                    obtain ⟨hwf3, hext4, cL, heqL, hrecL⟩ :=
                                      ihC _ _ _ _ _ _ _ _
                                        (TagsWF_consume (TagsWF_consume hwf _) _)
                                        hloop
                                    cases input3 with
                                    | nil =>
                                      simp only at h
                                      exact Except.noConfusion h
                                    | cons cp rest3 =>
                                      simp only at h
                                      split at h
                                      · exact Except.noConfusion h
                                      · rename_i st5 happ3
                                        split at h
                                        · rename_i text existing stackRest hstack
                                          split at h
                                          · exact Except.noConfusion h
                                          · rename_i p cross9 state9 hsc
                                            have htsf5 : st5.token_so_far =
                                                st4.token_so_far ++ [cp] := by
                                              rw [TokenParseState.append_char_ok happ3]
                                            have hchain9 : ∀ C,
                                                Reconstructs C state.token_so_far →
                                                Reconstructs
                                                  (C ++ ('$' :: cads :: (cL ++ [cp])))
                                                  st5.token_so_far := by
                                              intro C hC
                                              rw [htsf5]
                                              have s2' : Reconstructs
                                                  (C ++ ['$', cads])
                                                  st3.token_so_far := by
                                                rw [htsf3]
                                                simpa [List.append_assoc] using
                                                  (hC.snoc_keep '$').snoc_keep cads
                                              have s4 := (hrecL _ s2').snoc_keep cp
                                              simpa [List.append_assoc] using s4
                                            have hback9 : st5.token_so_far = [] →
                                                state.token_so_far = [] := by
                                              intro he
                                              exfalso
                                              rw [htsf5] at he
                                              simp at he
                                            obtain ⟨hw', hn', cons', heq', hrec'⟩ :=
                                              step_package2 ihN
                                                (TagsWF_consume hwf3 cp) hsc h
                                                ((TokenParseState.delimit_current_subtoken_token_so_far
                                                  _).1)
                                                hchain9 hback9
                                            refine ⟨hw', hn', cons', ?_, hrec'⟩
                                            rw [heqL]
                                            simpa [List.append_assoc] using heq'
                                        · exact Except.noConfusion h
                            · rename_i hpar
                              split at h
                              · -- ${ : braced parameter expansion
                                rename_i hbrace
                                split at h
                                · exact Except.noConfusion h
                                · rename_i st2 happ1
                                  split at h
                                  · exact Except.noConfusion h
                                  · rename_i st3 happ2
                                    split at h
                                    · exact Except.noConfusion h
                                    · rename_i q st4 input3 cross3 hloop
                                      have htsf2 := maybe_start_append_tsf happ1
                                      have htsf3 : st3.token_so_far =
                                          state.token_so_far ++ ['$', cads] := by
                                        rw [TokenParseState.append_char_ok happ2, htsf2]
                                        simp
                                      obtain ⟨hwf3, hext4, cL, heqL, hrecL⟩ :=
                                        ihB _ _ _ _ _ _
                                          (TagsWF_consume (TagsWF_consume hwf _) _)
                                          hloop
                                      split at h
                                      · exact Except.noConfusion h
                                      · rename_i p cross9 state9 hsc
                                        have hchain9 : ∀ C,
                                            Reconstructs C state.token_so_far →
                                            Reconstructs
                                              (C ++ ('$' :: cads :: cL))
                                              st4.token_so_far := by
                                          intro C hC
                                          have s2' : Reconstructs
                                              (C ++ ['$', cads])
                                              st3.token_so_far := by
                                            rw [htsf3]
                                            simpa [List.append_assoc] using
                                              (hC.snoc_keep '$').snoc_keep cads
                                          simpa [List.append_assoc] using
                                            hrecL _ s2'
                                        have hback9 : st4.token_so_far = [] →
                                            state.token_so_far = [] := by
                                          intro he
                                          exfalso
                                          obtain ⟨a, ha⟩ := hext4
                                          rw [ha, htsf3] at he
                                          simp at he
                                        obtain ⟨hw', hn', cons', heq', hrec'⟩ :=
                                          step_package ihN hwf3 hsc h
                                            hchain9 hback9
                                        refine ⟨hw', hn', cons', ?_, hrec'⟩
                                        rw [heqL]
                                        simpa [List.append_assoc] using heq'
                              · -- plain $ : kept literally
                                rename_i hbrace
                                split at h
                                · exact Except.noConfusion h
                                · rename_i st2 happ1
                                  split at h
                                  · exact Except.noConfusion h
                                  · rename_i p cross9 state9 hsc
                                    have htsf2 := maybe_start_append_tsf happ1
                                    exact step_package ihN (TagsWF_consume hwf _)
                                      hsc h
                                      (fun C hC => htsf2 ▸ hC.snoc_keep '$')
                                      (fun he => absurd (htsf2 ▸ he) (by simp))
                        · -- a backquote
                          rename_i hdol
                          split at h
                          · exact Except.noConfusion h
                          · rename_i st2 happ1
                            split at h
                            · exact Except.noConfusion h
                            · rename_i q st3 rest2 cross2 hscan
                              obtain ⟨hhs, hht, span, heqspan, htsf3⟩ :=
                                scanBackquote_spec _ _ _ _ _ _ _ _ hscan
                              have htsf2 : st2.token_so_far =
                                  state.token_so_far ++ [c] := by
                                rw [TokenParseState.append_char_ok happ1]
                                simp [TokenParseState.start_subtoken_token_so_far]
                              split at h
                              · exact Except.noConfusion h
                              · rename_i p cross9 state9 hsc
                                have hwf2 : TagsWF cross2 :=
                                  TagsWF_of_eq hht (TagsWF_consume hwf c)
                                have hchain9 : ∀ C,
                                    Reconstructs C state.token_so_far →
                                    Reconstructs (C ++ (c :: span))
                                      st3.delimit_current_subtoken.token_so_far := by
                                  intro C hC
                                  rw [(TokenParseState.delimit_current_subtoken_token_so_far
                                    _).1, htsf3, htsf2]
                                  have s1 := (hC.snoc_keep c).append
                                    (Reconstructs.refl span)
                                  simpa [List.append_assoc] using s1
                                have hback9 :
                                    st3.delimit_current_subtoken.token_so_far = [] →
                                    state.token_so_far = [] := by
                                  intro he
                                  exfalso
                                  rw [(TokenParseState.delimit_current_subtoken_token_so_far
                                    _).1, htsf3, htsf2] at he
                                  simp at he
                                obtain ⟨hw', hn', cons', heq', hrec'⟩ :=
                                  step_package ihN hwf2 hsc h hchain9 hback9
                                refine ⟨hw', hn', cons', ?_, hrec'⟩
                                rw [heqspan]
                                simpa [List.append_assoc] using heq'
                      · by_cases hOS : (state.unquoted && can_start_operator c) = true
                        · -- branch: character can start an operator
                          rw [next_token_until, if_neg hB, if_neg hHD,
                            if_neg hOP, if_neg hQ, if_neg hSQ, if_neg hDQ,
                            if_neg hESC, if_neg hSUB, if_pos hOS] at h
                          simp only at h
                          split at h
                          · -- word in progress: delimit, give the char back
                            rename_i hst
                            split at h
                            · exact Except.noConfusion h
                            · rename_i p res0 cross0 hdel
                              injection h with h
                              injection h with h1 h
                              injection h with h2 h3
                              subst h1
                              subst h2
                              subst h3
                              obtain ⟨hwf0, hback0, hrec0⟩ :=
                                delimit_package hdel hwf
                              refine ⟨hwf0, fun hn => ?_, [], rfl,
                                fun C hC => by simpa using hrec0 C hC⟩
                              exfalso
                              have htsf := hback0 hn
                              simp [TokenParseState.started_token, htsf] at hst
                          · -- start an operator token
                            rename_i hst
                            split at h
                            · exact Except.noConfusion h
                            · rename_i st2 happ
                              split at h
                              · exact Except.noConfusion h
                              · rename_i p cross3 state3 hsc
                                have htsf2 : st2.token_so_far =
                                    state.token_so_far ++ [c] := by
                                  rw [TokenParseState.append_char_ok happ]
                                  split
                                  · simp [TokenParseState.start_subtoken_token_so_far]
                                  · simp
                                exact step_package ihN (TagsWF_consume hwf c)
                                  hsc h
                                  (fun C hC => htsf2 ▸ hC.snoc_keep c)
                                  (fun he => absurd (htsf2 ▸ he) (by simp))
                        · by_cases hBL : (state.unquoted && is_blank c) = true
                          · -- branch: unquoted blank
                            rw [next_token_until, if_neg hB, if_neg hHD,
                              if_neg hOP, if_neg hQ, if_neg hSQ, if_neg hDQ,
                              if_neg hESC, if_neg hSUB, if_neg hOS,
                              if_pos hBL] at h
                            simp only at h
                            have hblank : is_blank c = true := by
                              simp only [Bool.and_eq_true] at hBL
                              exact hBL.2
                            split at h
                            · -- word in progress: delimit at the blank
                              rename_i hst
                              split at h
                              · exact Except.noConfusion h
                              · rename_i p res0 cross2 hdel
                                injection h with h
                                injection h with h1 h
                                injection h with h2 h3
                                subst h1
                                subst h2
                                subst h3
                                obtain ⟨hwf0, hback0, hrec0⟩ :=
                                  delimit_package hdel (TagsWF_consume hwf c)
                                refine ⟨hwf0, fun hn => ?_, [c], rfl,
                                  fun C hC => (hrec0 C hC).append_elided
                                    (Reconstructs.elide_blank c hblank .nil)⟩
                                exfalso
                                have htsf := hback0 hn
                                simp [TokenParseState.started_token, htsf] at hst
                            · -- nothing started: skip the blank
                              rename_i hst
                              split at h
                              · exact Except.noConfusion h
                              · rename_i p cross3 state3 hsc
                                exact step_package ihN (TagsWF_consume hwf c)
                                  hsc h
                                  (fun C hC => hC.snoc_blank hblank)
                                  (fun he => he)
                          · by_cases hLI : (!state.token_is_operator &&
                                (state.started_token || term.isSome)) = true
                            · -- branch: literal include (word or sub-lex)
                              rw [next_token_until, if_neg hB, if_neg hHD,
                                if_neg hOP, if_neg hQ, if_neg hSQ, if_neg hDQ,
                                if_neg hESC, if_neg hSUB, if_neg hOS,
                                if_neg hBL, if_pos hLI] at h
                              simp only at h
                              split at h
                              · exact Except.noConfusion h
                              · rename_i st2 happ
                                split at h
                                · exact Except.noConfusion h
                                · rename_i p cross3 state3 hsc
                                  have htsf2 := maybe_start_append_tsf happ
                                  exact step_package ihN (TagsWF_consume hwf c)
                                    hsc h
                                    (fun C hC => htsf2 ▸ hC.snoc_keep c)
                                    (fun he => absurd (htsf2 ▸ he) (by simp))
                            · by_cases hCM : (c == '#') = true
                              · -- branch: comment to end of line
                                rw [next_token_until, if_neg hB, if_neg hHD,
                                  if_neg hOP, if_neg hQ, if_neg hSQ, if_neg hDQ,
                                  if_neg hESC, if_neg hSUB, if_neg hOS,
                                  if_neg hBL, if_neg hLI, if_pos hCM] at h
                                simp only at h
                                obtain ⟨cs, hcseq, hnonl⟩ :=
                                  skipComment_spec rest0 (cross.consume c)
                                obtain ⟨hhs2, hht2⟩ :=
                                  skipComment_cross rest0 (cross.consume c)
                                have hwf2 : TagsWF
                                    (skipComment rest0 (cross.consume c)).2 :=
                                  TagsWF_of_eq hht2 (TagsWF_consume hwf c)
                                obtain ⟨hwf', hnone', cons', heq', hrec'⟩ :=
                                  ihN _ _ _ _ _ _ _ hwf2 h
                                have hc : c = '#' := eq_of_beq hCM
                                refine ⟨hwf', hnone', (c :: cs) ++ cons',
                                  by rw [hcseq, heq']; simp, fun C hC => ?_⟩
                                have hcom : Reconstructs ('#' :: cs) [] := by
                                  simpa using Reconstructs.elide_comment cs
                                    hnonl Reconstructs.nil
                                have hmid : Reconstructs (C ++ (c :: cs))
                                    state.token_so_far := by
                                  subst hc
                                  exact hC.append_elided hcom
                                have := hrec' _ hmid
                                simpa [List.append_assoc] using this
                              · by_cases hST : state.started_token = true
                                · -- branch: any other delimiter ends the word
                                  rw [next_token_until, if_neg hB, if_neg hHD,
                                    if_neg hOP, if_neg hQ, if_neg hSQ,
                                    if_neg hDQ, if_neg hESC, if_neg hSUB,
                                    if_neg hOS, if_neg hBL, if_neg hLI,
                                    if_neg hCM, if_pos hST] at h
                                  split at h
                                  · exact Except.noConfusion h
                                  · rename_i p res0 cross0 hdel
                                    injection h with h
                                    injection h with h1 h
                                    injection h with h2 h3
                                    subst h1
                                    subst h2
                                    subst h3
                                    obtain ⟨hwf0, hback0, hrec0⟩ :=
                                      delimit_package hdel hwf
                                    refine ⟨hwf0, fun hn => ?_, [], rfl,
                                      fun C hC => by simpa using hrec0 C hC⟩
                                    exfalso
                                    have htsf := hback0 hn
                                    simp [TokenParseState.started_token,
                                      htsf] at hST
                                · -- branch: default append of the character
                                  rw [next_token_until, if_neg hB, if_neg hHD,
                                    if_neg hOP, if_neg hQ, if_neg hSQ,
                                    if_neg hDQ, if_neg hESC, if_neg hSUB,
                                    if_neg hOS, if_neg hBL, if_neg hLI,
                                    if_neg hCM, if_neg hST] at h
                                  simp only at h
                                  split at h
                                  · exact Except.noConfusion h
                                  · rename_i st2 happ
                                    split at h
                                    · exact Except.noConfusion h
                                    · rename_i p cross3 state3 hsc
                                      have htsf2 := maybe_start_append_tsf happ
                                      exact step_package ihN
                                        (TagsWF_consume hwf c) hsc h
                                        (fun C hC => htsf2 ▸ hC.snoc_keep c)
                                        (fun he =>
                                          absurd (htsf2 ▸ he) (by simp))
    · -- CSInv (fuel+1)
      intro input cross state tokens state' tokens' input' cross' hwf h
      rw [command_substitution_loop] at h
      rcases hnt : next_token_until fuel (some ')') input cross
          (TokenParseState.new cross.cursor) with f | r
      · rw [hnt] at h
        exact absurd h (by simp)
      · rcases r with ⟨res0, input1, cross1⟩
        rw [hnt] at h
        simp only at h
        obtain ⟨hwf1, hnone0, c0, hc0eq, hrec0⟩ :=
          ihN _ _ _ _ _ _ _ hwf hnt
        rcases htok : res0.token with _ | tok
        · rw [htok] at h
          have hc0nil : Reconstructs c0 [] := by
            have := hrec0 [] Reconstructs.nil
            simpa [tokenRawOrNil, htok] using this
          by_cases hr : res0.reason = TokenEndReason.SpecifiedTerminatingChar
          · rw [if_pos hr] at h
            injection h with h
            injection h with h1 h
            injection h with h2 h
            injection h with h3 h4
            subst h1; subst h2; subst h3; subst h4
            exact ⟨hwf1, ⟨[], by simp⟩, c0, hc0eq,
              fun C hC => hC.append_elided hc0nil⟩
          · rw [if_neg hr] at h
            obtain ⟨hwf2, hext1, c1, heq1, hrec1⟩ :=
              ihC _ _ _ _ _ _ _ _ hwf1 h
            refine ⟨hwf2, hext1, c0 ++ c1, by simp [hc0eq, heq1],
              fun C hC => ?_⟩
            have := hrec1 (C ++ c0) (hC.append_elided hc0nil)
            simpa [List.append_assoc] using this
        · rw [htok] at h
          have hc0tok : Reconstructs c0 tok.to_str := by
            have := hrec0 [] Reconstructs.nil
            simpa [tokenRawOrNil, htok] using this
          by_cases hne : (!tokens.isEmpty) = true
          · rw [if_pos hne] at h
            rcases hap : state.append_char ' ' with f | stA
            · rw [hap] at h
              exact absurd h (by simp)
            · rw [hap] at h
              simp only at h
              have hstA := TokenParseState.append_char_ok hap
              rcases hap2 : stA.append_str tok.to_str with f | stB
              · rw [hap2] at h
                exact absurd h (by simp)
              · rw [hap2] at h
                simp only at h
                have hstB := TokenParseState.append_str_ok hap2
                have hstBtsf : stB.token_so_far =
                    state.token_so_far ++ (' ' :: tok.to_str) := by
                  rw [hstB]; simp [hstA]
                have hchain : ∀ C, Reconstructs C state.token_so_far →
                    Reconstructs (C ++ c0) stB.token_so_far := by
                  intro C hC
                  rw [hstBtsf]
                  exact hC.append hc0tok.collapse_space
                by_cases hr : res0.reason = TokenEndReason.SpecifiedTerminatingChar
                · rw [if_pos hr] at h
                  injection h with h
                  injection h with h1 h
                  injection h with h2 h
                  injection h with h3 h4
                  subst h1; subst h2; subst h3; subst h4
                  exact ⟨hwf1, ⟨' ' :: tok.to_str, hstBtsf⟩, c0, hc0eq, hchain⟩
                · rw [if_neg hr] at h
                  obtain ⟨hwf2, hext1, c1, heq1, hrec1⟩ :=
                    ihC _ _ _ _ _ _ _ _ hwf1 h
                  obtain ⟨a1, ha1⟩ := hext1
                  refine ⟨hwf2, ⟨(' ' :: tok.to_str) ++ a1,
                      by rw [ha1, hstBtsf]; simp⟩,
                    c0 ++ c1, by simp [hc0eq, heq1], fun C hC => ?_⟩
                  have := hrec1 (C ++ c0) (hchain C hC)
                  simpa [List.append_assoc] using this
          · rw [if_neg hne] at h
            simp only at h
            rcases hap2 : state.append_str tok.to_str with f | stB
            · rw [hap2] at h
              exact absurd h (by simp)
            · rw [hap2] at h
              simp only at h
              have hstB := TokenParseState.append_str_ok hap2
              have hchain : ∀ C, Reconstructs C state.token_so_far →
                  Reconstructs (C ++ c0) stB.token_so_far := by
                intro C hC
                rw [hstB]
                exact hC.append hc0tok
              have hstBext : stB.token_so_far =
                  state.token_so_far ++ tok.to_str := by
                simp [hstB]
              by_cases hr : res0.reason = TokenEndReason.SpecifiedTerminatingChar
              · rw [if_pos hr] at h
                injection h with h
                injection h with h1 h
                injection h with h2 h
                injection h with h3 h4
                subst h1; subst h2; subst h3; subst h4
                exact ⟨hwf1, ⟨tok.to_str, hstBext⟩, c0, hc0eq, hchain⟩
              · rw [if_neg hr] at h
                obtain ⟨hwf2, hext1, c1, heq1, hrec1⟩ :=
                  ihC _ _ _ _ _ _ _ _ hwf1 h
                obtain ⟨a1, ha1⟩ := hext1
                refine ⟨hwf2, ⟨tok.to_str ++ a1, by rw [ha1, hstBext]; simp⟩,
                  c0 ++ c1, by simp [hc0eq, heq1], fun C hC => ?_⟩
                have := hrec1 (C ++ c0) (hchain C hC)
                simpa [List.append_assoc] using this
    · -- BRInv (fuel+1)
      intro input cross state state' input' cross' hwf h
      rw [braced_expansion_loop] at h
      rcases hnt : next_token_until fuel (some '}') input cross
          (TokenParseState.new cross.cursor) with f | r
      · rw [hnt] at h
        exact absurd h (by simp)
      · rcases r with ⟨res0, input1, cross1⟩
        rw [hnt] at h
        simp only at h
        obtain ⟨hwf1, hnone0, c0, hc0eq, hrec0⟩ :=
          ihN _ _ _ _ _ _ _ hwf hnt
        split at h
        · exact Except.noConfusion h
        · rename_i stA heqA
          have hchainA : ∀ C, Reconstructs C state.token_so_far →
              Reconstructs (C ++ c0) stA.token_so_far := by
            split at heqA
            · rename_i tok htok
              rw [TokenParseState.append_str_ok heqA]
              intro C hC
              have hc0tok : Reconstructs c0 tok.to_str := by
                have := hrec0 [] Reconstructs.nil
                simpa [tokenRawOrNil, htok] using this
              exact hC.append hc0tok
            · rename_i htok
              injection heqA with heqA
              subst heqA
              intro C hC
              have hc0nil : Reconstructs c0 [] := by
                have := hrec0 [] Reconstructs.nil
                simpa [tokenRawOrNil, htok] using this
              exact hC.append_elided hc0nil
          have hextA : ∃ a, stA.token_so_far = state.token_so_far ++ a := by
            split at heqA
            · rename_i tok htok
              exact ⟨tok.to_str,
                by simp [TokenParseState.append_str_ok heqA]⟩
            · injection heqA with heqA
              subst heqA
              exact ⟨[], by simp⟩
          clear heqA hrec0 hnone0
          split at h
          · exact Except.noConfusion h
          · rename_i stB heqB
            have hchainB : ∀ C, Reconstructs C state.token_so_far →
                Reconstructs (C ++ c0) stB.token_so_far := by
              split at heqB
              · rename_i hr2
                rw [TokenParseState.append_char_ok heqB]
                intro C hC
                simpa using (hchainA C hC).append (Reconstructs.collapse_space .nil)
              · rename_i hr2
                injection heqB with heqB
                subst heqB
                exact hchainA
            have hextB : ∃ a, stB.token_so_far = state.token_so_far ++ a := by
              obtain ⟨a, ha⟩ := hextA
              split at heqB
              · exact ⟨a ++ [' '],
                  by simp [TokenParseState.append_char_ok heqB, ha]⟩
              · injection heqB with heqB
                subst heqB
                exact ⟨a, ha⟩
            clear heqB hchainA hextA
            split at h
            · rename_i hr
              cases input1 with
              | nil =>
                simp only at h
                exact Except.noConfusion h
              | cons cb rest1 =>
                simp only at h
                rcases hap3 : stB.append_char cb with f | stC
                · rw [hap3] at h
                  exact Except.noConfusion h
                · rw [hap3] at h
                  simp only at h
                  injection h with h
                  injection h with h1 h
                  injection h with h2 h3
                  subst h1
                  subst h2
                  subst h3
                  obtain ⟨a, ha⟩ := hextB
                  refine ⟨TagsWF_consume hwf1 cb,
                    ⟨a ++ [cb],
                      by simp [TokenParseState.append_char_ok hap3, ha]⟩,
                    c0 ++ [cb], by simp [hc0eq], fun C hC => ?_⟩
                  rw [TokenParseState.append_char_ok hap3]
                  have := (hchainB C hC).append (Reconstructs.keep cb .nil)
                  simpa [List.append_assoc] using this
            · rename_i hr
              obtain ⟨hwf2, hext1, c1, heq1, hrec1⟩ := ihB _ _ _ _ _ _ hwf1 h
              obtain ⟨a, ha⟩ := hextB
              obtain ⟨a1, ha1⟩ := hext1
              refine ⟨hwf2, ⟨a ++ a1, by rw [ha1, ha]; simp⟩,
                c0 ++ c1, by simp [hc0eq, heq1], fun C hC => ?_⟩
              have := hrec1 (C ++ c0) (hchainB C hC)
              simpa [List.append_assoc] using this

/-- The whole-input collection loop preserves reconstruction: tokens
gathered after `acc` jointly reconstruct the entire remaining input. -/
theorem tokenize_str_loop_reconstructs :
    ∀ (fuel : Nat) (input : List Char) (cross : CrossTokenParseState)
        (acc tokens : List Token),
    TagsWF cross →
    tokenize_str_loop fuel input cross acc = .ok tokens →
    ∃ gathered, tokens = acc ++ gathered ∧
      Reconstructs input ((gathered.map Token.to_str).flatten) := by
  intro fuel
  induction fuel with
  | zero =>
    intro input cross acc tokens hwf h
    rw [tokenize_str_loop] at h
    exact absurd h (by simp)
  | succ fuel ih =>
    intro input cross acc tokens hwf h
    rw [tokenize_str_loop] at h
    rcases hnt : next_token fuel input cross with f | r
    · rw [hnt] at h
      exact absurd h (by simp)
    · rcases r with ⟨res0, input1, cross1⟩
      rw [hnt] at h
      simp only at h
      unfold next_token at hnt
      obtain ⟨hwf1, hnone0, c0, hc0eq, hrec0⟩ :=
        (reconstruction_invariant fuel).1 _ _ _ _ _ _ _ hwf hnt
      rcases htok : res0.token with _ | tok
      · rw [htok] at h
        injection h with h
        subst h
        obtain ⟨hts, hrest⟩ := hnone0 htok
        refine ⟨[], by simp, ?_⟩
        have hc0nil := hrec0 [] Reconstructs.nil
        simp only [tokenRawOrNil, htok] at hc0nil
        rw [hc0eq, hrest rfl]
        simpa using hc0nil
      · rw [htok] at h
        obtain ⟨gathered1, hg1, hrec1⟩ := ih _ _ _ _ hwf1 h
        refine ⟨tok :: gathered1, by simpa using hg1, ?_⟩
        have h0 : Reconstructs c0 tok.to_str := by
          have := hrec0 [] Reconstructs.nil
          simpa [tokenRawOrNil, htok] using this
        rw [hc0eq]
        simpa using h0.append hrec1

/-- C2 (amended): whenever tokenization succeeds, the concatenated raw
texts of the emitted tokens reconstruct the entire input, i.e. they agree
with it character for character except for the elisions the tokenizer
performs: delimiting blanks, `#` comments, `\`-newline line continuations,
here-document terminator lines and stripped tabs (elided whole lines), an
unconsumed `$` at end of input, and single spaces inserted between the
sub-tokens of a `$(...)` substitution. -/
theorem c2_raw_text_reconstruction (fuel : Nat) (input : List Char)
    (tokens : List Token)
    (h : tokenize_str fuel input = .ok tokens) :
    Reconstructs input ((tokens.map Token.to_str).flatten) := by
  obtain ⟨gathered, hg, hrec⟩ :=
    tokenize_str_loop_reconstructs fuel input initialCrossState [] tokens
      (fun tag htag => absurd htag (by simp [initialCrossState])) h
  simpa [hg] using hrec

/-- Closed instance of the C2 reconstruction theorem on a concrete
input. -/
theorem c2_raw_text_reconstruction_witness :
    Reconstructs "a  b".data
      ((((tokenize_str 30 "a  b".data).toOption.getD []).map
        Token.to_str).flatten) :=
  c2_raw_text_reconstruction 30 "a  b".data
    ((tokenize_str 30 "a  b".data).toOption.getD []) (by rfl)
